import Mathlib

set_option maxHeartbeats 1000000

/-!
Verification of the structural source-transformation core of
create-relay-app.  The JavaScript/TypeScript syntax fragment that the
tasks inspect is embedded shallowly as mutual inductive types; every
transformation below is a direct translation of the corresponding
source function.
-/

/-- Key of an object-literal property (Babel: Identifier or StringLiteral). -/
inductive ObjKey where
  | ident : String → ObjKey
  | strKey : String → ObjKey

/-- Import specifier of an import declaration: a default specifier with its
local name, or a named specifier with imported and local names. -/
inductive ImportSpec where
  | dflt : String → ImportSpec
  | named : String → String → ImportSpec

/-- Tag name of a JSX element (Babel: JSXIdentifier or JSXMemberExpression). -/
inductive JsxName where
  | ident : String → JsxName
  | memberName : JsxName → String → JsxName
deriving DecidableEq

mutual
/-- Expressions of the fragment the tasks traverse. -/
inductive Expr where
  | ident : String → Expr
  | strLit : String → Expr
  | call : Expr → List Expr → Expr
  | member : Expr → Expr → Expr
  | obj : List ObjProp → Expr
  | arr : List Expr → Expr
  | jsx : Jsx → Expr
  | arrowFun : List Stmt → Expr

/-- Member of an object literal: an ObjectProperty or a SpreadElement. -/
inductive ObjProp where
  | prop : ObjKey → Expr → ObjProp
  | spread : Expr → ObjProp

/-- A JSX element: tag name, attributes of the opening element, children. -/
inductive Jsx where
  | elem : JsxName → List JsxAttr → List JsxChild → Jsx

/-- A JSX attribute with its name and value. -/
inductive JsxAttr where
  | attr : String → JsxAttrVal → JsxAttr

/-- Value of a JSX attribute: an expression container or a string literal. -/
inductive JsxAttrVal where
  | container : Expr → JsxAttrVal
  | lit : String → JsxAttrVal

/-- A child of a JSX element. -/
inductive JsxChild where
  | elem : Jsx → JsxChild
  | container : Expr → JsxChild
  | text : String → JsxChild

/-- Statements of the fragment (top level of a module or a function body). -/
inductive Stmt where
  | importDecl : List ImportSpec → String → Stmt
  | exportDefault : Expr → Stmt
  | assign : String → Expr → Expr → Stmt
  | varDecl : String → Expr → Stmt
  | funcDecl : String → List Stmt → Stmt
  | ret : Expr → Stmt
  | retVoid : Stmt
  | exprStmt : Expr → Stmt
end

/-- helpers.ts getRelayCompilerLanguage: picks the relay-compiler language
from the useTypescript flag. -/
def getRelayCompilerLanguage (useTypescript : Bool) : String :=
  if useTypescript then "typescript" else "javascript"

/-- AddRelayPluginConfigurationTask.configureVite, Program visitor: test of a
single statement, `s.isImportDeclaration() and s.node.specifiers.some(sp =>
isImportDefaultSpecifier(sp) and sp.local.name === relayImportName)`. -/
def isRelayDefaultImport (relayImportName : String) (s : Stmt) : Bool :=
  match s with
  | .importDecl specs _ =>
      specs.any fun sp =>
        match sp with
        | .dflt l => l = relayImportName
        | _ => false
  | _ => false

/-- AddRelayPluginConfigurationTask.configureVite, Program visitor: if no
existing declaration has a default import specifier locally named `relay`,
a default import of `relay` from "vite-plugin-relay" is unshifted onto the
body. -/
def ensureRelayImport (prog : List Stmt) : List Stmt :=
  if prog.any (isRelayDefaultImport "relay") then prog
  else .importDecl [.dflt "relay"] "vite-plugin-relay" :: prog

/-- Source: `properties.find(p => isObjectProperty(p) and isIdentifier(p.key) and
p.key.name === k)`, projected to the found property's value. -/
def findPropVal (k : String) : List ObjProp → Option Expr
  | [] => none
  | .prop (.ident n) v :: rest =>
      if n = k then some v else findPropVal k rest
  | _ :: rest => findPropVal k rest

/-- In-place update of the value of the first object property with
identifier key `k` (the property located by `findPropVal`). -/
def replacePropVal (k : String) (v : Expr) : List ObjProp → List ObjProp
  | [] => []
  | .prop (.ident n) w :: rest =>
      if n = k then .prop (.ident n) v :: rest
      else .prop (.ident n) w :: replacePropVal k v rest
  | p :: rest => p :: replacePropVal k v rest

/-- Source: `t.isIdentifier(p) and p.name === relayImportName` for the plugins array
elements. -/
def isRelayIdent (e : Expr) : Bool :=
  match e with
  | .ident n => n = "relay"
  | _ => false

/-- Error thrown when the Vite config has no `export default defineConfig`
of the expected shape. -/
def errShapeVite : String :=
  "Expected a export default defineConfig(\x7b\x7d) in the Vite config file."

/-- Error thrown when the `plugins` property of the Vite config object is
not an array expression. -/
def errPluginsVite : String :=
  "Could not create or get a \"plugins\" property on the Vite configuration object."

/-- AddRelayPluginConfigurationTask.configureVite, mutation of the object
literal passed to defineConfig: find or create the `plugins` property, fail
if its value is not an array, skip if an identifier element named `relay`
already exists, otherwise push `relay`. -/
def mutateViteConfigObj (props : List ObjProp) : Except String (List ObjProp) :=
  match findPropVal "plugins" props with
  | some (.arr elems) =>
      if elems.any isRelayIdent then .ok props
      else .ok (replacePropVal "plugins" (.arr (elems ++ [Expr.ident "relay"])) props)
  | some _ => .error errPluginsVite
  | none => .ok (props ++ [ObjProp.prop (.ident "plugins") (.arr [Expr.ident "relay"])])

/-- AddRelayPluginConfigurationTask.configureVite, ExportDefaultDeclaration
visitor: the declaration must be a call of the identifier `defineConfig`
with at least one argument, and the first argument must be an object
literal; otherwise the task fails. -/
def mutateExportDefault (d : Expr) : Except String Expr :=
  match d with
  | .call (.ident n) (a0 :: restArgs) =>
      if n = "defineConfig" then
        match a0 with
        | .obj props =>
            match mutateViteConfigObj props with
            | .ok props' => .ok (.call (.ident n) (.obj props' :: restArgs))
            | .error msg => .error msg
        | _ => .error errShapeVite
      else .error errShapeVite
  | _ => .error errShapeVite

/-- Application of the ExportDefaultDeclaration visitor to one statement. -/
def mutateViteStmt : Stmt → Except String Stmt
  | .exportDefault d =>
      match mutateExportDefault d with
      | .ok d' => .ok (.exportDefault d')
      | .error m => .error m
  | s => .ok s

/-- Application of the ExportDefaultDeclaration visitor to every statement
of the program body. -/
def mutateViteExports : List Stmt → Except String (List Stmt)
  | [] => .ok []
  | s :: rest =>
      match mutateViteStmt s, mutateViteExports rest with
      | .ok s', .ok rest' => .ok (s' :: rest')
      | .error m, _ => .error m
      | .ok _, .error m => .error m

/-- AddRelayPluginConfigurationTask.configureVite on a parsed config file:
the Program visitor (import ensure) runs on the root first, then the
ExportDefaultDeclaration visitor on the body.  `.ok` is the tree written
back to the file; `.error` aborts the task before any write. -/
def configureVite (prog : List Stmt) : Except String (List Stmt) :=
  mutateViteExports (ensureRelayImport prog)

theorem findPropVal_replacePropVal (k : String) (v : Expr) :
    ∀ props : List ObjProp, (findPropVal k props).isSome →
      findPropVal k (replacePropVal k v props) = some v := by
  intro props h
  induction props with
  | nil => simp [findPropVal] at h
  | cons p rest ih =>
      match p with
      | .prop (.ident n) w =>
          by_cases hn : n = k
          · simp [findPropVal, replacePropVal, hn]
          · simp [findPropVal, replacePropVal, hn] at h ⊢
            exact ih h
      | .prop (.strKey n) w =>
          simp [findPropVal, replacePropVal] at h ⊢
          exact ih h
      | .spread w =>
          simp [findPropVal, replacePropVal] at h ⊢
          exact ih h

theorem findPropVal_append_single (k : String) (v : Expr) :
    ∀ props : List ObjProp, findPropVal k props = none →
      findPropVal k (props ++ [ObjProp.prop (.ident k) v]) = some v := by
  intro props h
  induction props with
  | nil => simp [findPropVal]
  | cons p rest ih =>
      match p with
      | .prop (.ident n) w =>
          by_cases hn : n = k
          · simp [findPropVal, hn] at h
          · simp [findPropVal, hn] at h ⊢
            exact ih h
      | .prop (.strKey n) w =>
          simp [findPropVal] at h ⊢
          exact ih h
      | .spread w =>
          simp [findPropVal] at h ⊢
          exact ih h

theorem mutateViteConfigObj_idem (props props' : List ObjProp)
    (h : mutateViteConfigObj props = .ok props') :
    mutateViteConfigObj props' = .ok props' := by
  unfold mutateViteConfigObj at h
  match hf : findPropVal "plugins" props with
  | some (.arr elems) =>
      rw [hf] at h
      by_cases hr : elems.any isRelayIdent
      · simp [hr] at h
        subst h
        simp [mutateViteConfigObj, hf, hr]
      · simp [hr] at h
        subst h
        have hsome : (findPropVal "plugins" props).isSome := by
          rw [hf]; rfl
        have hrep := findPropVal_replacePropVal "plugins"
          (.arr (elems ++ [Expr.ident "relay"])) props hsome
        have hany : (elems ++ [Expr.ident "relay"]).any isRelayIdent = true := by
          simp [List.any_append, isRelayIdent]
        simp [mutateViteConfigObj, hrep, hany]
  | some (.ident s) => rw [hf] at h; simp at h
  | some (.strLit s) => rw [hf] at h; simp at h
  | some (.call c a) => rw [hf] at h; simp at h
  | some (.member o p) => rw [hf] at h; simp at h
  | some (.obj ps) => rw [hf] at h; simp at h
  | some (.jsx j) => rw [hf] at h; simp at h
  | some (.arrowFun b) => rw [hf] at h; simp at h
  | none =>
      rw [hf] at h
      simp at h
      subst h
      have happ := findPropVal_append_single "plugins" (.arr [Expr.ident "relay"]) props hf
      have hany : ([Expr.ident "relay"]).any isRelayIdent = true := by
        simp [isRelayIdent]
      simp [mutateViteConfigObj, happ, hany]

theorem mutateExportDefault_idem (d d' : Expr)
    (h : mutateExportDefault d = .ok d') :
    mutateExportDefault d' = .ok d' := by
  unfold mutateExportDefault at h
  match d with
  | .call (.ident n) (a0 :: restArgs) =>
      simp only at h
      by_cases hn : n = "defineConfig"
      · rw [if_pos hn] at h
        match a0 with
        | .obj props =>
            match hm : mutateViteConfigObj props with
            | .ok props' =>
                simp only [hm] at h
                simp at h
                subst h
                have hidem := mutateViteConfigObj_idem props props' hm
                simp [mutateExportDefault, hn, hidem]
            | .error m => simp only [hm] at h; simp at h
        | .ident s => simp at h
        | .strLit s => simp at h
        | .call c a => simp at h
        | .member o p => simp at h
        | .arr es => simp at h
        | .jsx j => simp at h
        | .arrowFun b => simp at h
      · rw [if_neg hn] at h; simp at h
  | .call (.strLit s) args => simp at h
  | .call (.call c a) args => simp at h
  | .call (.member o p) args => simp at h
  | .call (.obj ps) args => simp at h
  | .call (.arr es) args => simp at h
  | .call (.jsx j) args => simp at h
  | .call (.arrowFun b) args => simp at h
  | .call (.ident n) [] => simp at h
  | .ident s => simp at h
  | .strLit s => simp at h
  | .member o p => simp at h
  | .obj ps => simp at h
  | .arr es => simp at h
  | .jsx j => simp at h
  | .arrowFun b => simp at h

theorem mutateViteStmt_idem (s s' : Stmt)
    (h : mutateViteStmt s = .ok s') : mutateViteStmt s' = .ok s' := by
  match s with
  | .exportDefault d =>
      unfold mutateViteStmt at h
      match hm : mutateExportDefault d with
      | .ok d' =>
          simp only [hm] at h
          simp at h
          subst h
          have hidem := mutateExportDefault_idem d d' hm
          simp [mutateViteStmt, hidem]
      | .error m => simp only [hm] at h; simp at h
  | .importDecl sp m =>
      simp [mutateViteStmt] at h; subst h; simp [mutateViteStmt]
  | .assign o l r =>
      simp [mutateViteStmt] at h; subst h; simp [mutateViteStmt]
  | .varDecl n i =>
      simp [mutateViteStmt] at h; subst h; simp [mutateViteStmt]
  | .funcDecl n b =>
      simp [mutateViteStmt] at h; subst h; simp [mutateViteStmt]
  | .ret e =>
      simp [mutateViteStmt] at h; subst h; simp [mutateViteStmt]
  | .retVoid =>
      simp [mutateViteStmt] at h; subst h; simp [mutateViteStmt]
  | .exprStmt e =>
      simp [mutateViteStmt] at h; subst h; simp [mutateViteStmt]

theorem mutateViteStmt_relayImport (r : String) (s s' : Stmt)
    (h : mutateViteStmt s = .ok s') :
    isRelayDefaultImport r s' = isRelayDefaultImport r s := by
  match s with
  | .exportDefault d =>
      unfold mutateViteStmt at h
      match hm : mutateExportDefault d with
      | .ok d' =>
          simp only [hm] at h; simp at h; subst h
          simp [isRelayDefaultImport]
      | .error m => simp only [hm] at h; simp at h
  | .importDecl sp m => simp [mutateViteStmt] at h; subst h; rfl
  | .assign o l rr => simp [mutateViteStmt] at h; subst h; rfl
  | .varDecl n i => simp [mutateViteStmt] at h; subst h; rfl
  | .funcDecl n b => simp [mutateViteStmt] at h; subst h; rfl
  | .ret e => simp [mutateViteStmt] at h; subst h; rfl
  | .retVoid => simp [mutateViteStmt] at h; subst h; rfl
  | .exprStmt e => simp [mutateViteStmt] at h; subst h; rfl

theorem mutateViteExports_idem :
    ∀ ss ss' : List Stmt, mutateViteExports ss = .ok ss' →
      mutateViteExports ss' = .ok ss' := by
  intro ss
  induction ss with
  | nil =>
      intro ss' h
      simp [mutateViteExports] at h
      subst h
      rfl
  | cons s rest ih =>
      intro ss' h
      unfold mutateViteExports at h
      match hs : mutateViteStmt s, hr : mutateViteExports rest with
      | .ok s', .ok rest' =>
          rw [hs, hr] at h
          simp at h
          subst h
          unfold mutateViteExports
          rw [mutateViteStmt_idem s s' hs, ih rest' hr]
      | .error m, _ => rw [hs] at h; simp at h
      | .ok s', .error m => rw [hs, hr] at h; simp at h

theorem mutateViteExports_relayImport (r : String) :
    ∀ ss ss' : List Stmt, mutateViteExports ss = .ok ss' →
      ss'.any (isRelayDefaultImport r) = ss.any (isRelayDefaultImport r) := by
  intro ss
  induction ss with
  | nil =>
      intro ss' h
      simp [mutateViteExports] at h
      subst h
      rfl
  | cons s rest ih =>
      intro ss' h
      unfold mutateViteExports at h
      match hs : mutateViteStmt s, hr : mutateViteExports rest with
      | .ok s', .ok rest' =>
          rw [hs, hr] at h
          simp at h
          subst h
          simp [List.any_cons, mutateViteStmt_relayImport r s s' hs, ih rest' hr]
      | .error m, _ => rw [hs] at h; simp at h
      | .ok s', .error m => rw [hs, hr] at h; simp at h

theorem ensureRelayImport_has (prog : List Stmt) :
    (ensureRelayImport prog).any (isRelayDefaultImport "relay") = true := by
  unfold ensureRelayImport
  by_cases h : prog.any (isRelayDefaultImport "relay")
  · rw [if_pos h]; exact h
  · rw [if_neg h]
    simp [List.any_cons, isRelayDefaultImport]

/-- C1: for every Vite configuration file of the recognized shape (so that
the first application of `configureVite` succeeds), applying
`configureVite` to its own output detects the existing `relay` import and
the existing `relay` element of the `plugins` array, performs no further
mutation, and returns the first run's output unchanged: the mutation is
idempotent. -/
theorem c1_configureVite_idempotent (prog prog' : List Stmt)
    (h : configureVite prog = .ok prog') :
    configureVite prog' = .ok prog' := by
  unfold configureVite at h ⊢
  have hhas : prog'.any (isRelayDefaultImport "relay") = true := by
    rw [mutateViteExports_relayImport "relay" (ensureRelayImport prog) prog' h]
    exact ensureRelayImport_has prog
  have hens : ensureRelayImport prog' = prog' := by
    unfold ensureRelayImport
    rw [if_pos hhas]
  rw [hens]
  exact mutateViteExports_idem (ensureRelayImport prog) prog' h

/-- Witness for C1: the scenario of the spec, `export default defineConfig(
plugins: [] )`, run twice; the hypothesis of the theorem is discharged by
evaluation. -/
theorem c1_witness :
    configureVite
      [Stmt.importDecl [ImportSpec.dflt "relay"] "vite-plugin-relay",
       Stmt.exportDefault (Expr.call (Expr.ident "defineConfig")
         [Expr.obj [ObjProp.prop (ObjKey.ident "plugins")
           (Expr.arr [Expr.ident "relay"])]])] =
    .ok [Stmt.importDecl [ImportSpec.dflt "relay"] "vite-plugin-relay",
       Stmt.exportDefault (Expr.call (Expr.ident "defineConfig")
         [Expr.obj [ObjProp.prop (ObjKey.ident "plugins")
           (Expr.arr [Expr.ident "relay"])]])] :=
  c1_configureVite_idempotent
    [Stmt.exportDefault (Expr.call (Expr.ident "defineConfig")
       [Expr.obj [ObjProp.prop (ObjKey.ident "plugins") (Expr.arr [])]])]
    [Stmt.importDecl [ImportSpec.dflt "relay"] "vite-plugin-relay",
     Stmt.exportDefault (Expr.call (Expr.ident "defineConfig")
       [Expr.obj [ObjProp.prop (ObjKey.ident "plugins")
         (Expr.arr [Expr.ident "relay"])]])]
    rfl

/-- Modelled from the spec: `insertNamedImport` is imported from the utils
module, whose source file is not among the provided sources; the spec says
the Import-ensure mutation "scans existing import declarations for one
already importing that binding from that module; if found, reuses the
existing local name".  Scan of one declaration's specifiers for a named
specifier importing `binding`, returning its local name. -/
def findSpecLocal (binding : String) : List ImportSpec → Option String
  | [] => none
  | .named imp loc :: rest =>
      if imp = binding then some loc else findSpecLocal binding rest
  | _ :: rest => findSpecLocal binding rest

/-- Modelled from the spec: scan of the file's import declarations for one
that imports `binding` from `module`, returning the existing local name. -/
def findNamedImportLocal (module binding : String) : List Stmt → Option String
  | [] => none
  | .importDecl specs m :: rest =>
      if m = module then
        match findSpecLocal binding specs with
        | some y => some y
        | none => findNamedImportLocal module binding rest
      else findNamedImportLocal module binding rest
  | _ :: rest => findNamedImportLocal module binding rest

/-- Modelled from the spec: the Import-ensure mutation; if a matching import
exists its local name is reused and the file is unchanged, "otherwise
inserts a new import declaration at the top of the file and returns the
newly bound local name". -/
def insertNamedImport (module binding : String) (prog : List Stmt) :
    String × List Stmt :=
  match findNamedImportLocal module binding prog with
  | some y => (y, prog)
  | none => (binding, .importDecl [.named binding binding] module :: prog)

/-- The file contains an import declaration importing `binding` from
`module` under local alias `loc`. -/
def hasNamedImport (module binding loc : String) (prog : List Stmt) : Prop :=
  ∃ specs, Stmt.importDecl specs module ∈ prog ∧
    ImportSpec.named binding loc ∈ specs

theorem findSpecLocal_isSome (binding loc : String) :
    ∀ specs : List ImportSpec, ImportSpec.named binding loc ∈ specs →
      (findSpecLocal binding specs).isSome := by
  intro specs h
  induction specs with
  | nil => simp at h
  | cons sp rest ih =>
      match sp with
      | .named imp l =>
          by_cases hi : imp = binding
          · simp [findSpecLocal, hi]
          · simp [findSpecLocal, hi]
            rcases List.mem_cons.mp h with h1 | h1
            · cases h1; exact absurd rfl hi
            · exact ih h1
      | .dflt l =>
          simp [findSpecLocal]
          rcases List.mem_cons.mp h with h1 | h1
          · cases h1
          · exact ih h1

theorem findSpecLocal_mem (binding : String) :
    ∀ (specs : List ImportSpec) (y : String),
      findSpecLocal binding specs = some y →
      ImportSpec.named binding y ∈ specs := by
  intro specs
  induction specs with
  | nil => intro y h; simp [findSpecLocal] at h
  | cons sp rest ih =>
      intro y h
      match sp with
      | .named imp l =>
          by_cases hi : imp = binding
          · simp [findSpecLocal, hi] at h
            subst hi; subst h
            exact List.mem_cons_self _ _
          · simp [findSpecLocal, hi] at h
            exact List.mem_cons_of_mem _ (ih y h)
      | .dflt l =>
          simp [findSpecLocal] at h
          exact List.mem_cons_of_mem _ (ih y h)

theorem findNamedImportLocal_isSome (module binding loc : String) :
    ∀ prog : List Stmt, hasNamedImport module binding loc prog →
      (findNamedImportLocal module binding prog).isSome := by
  intro prog h
  induction prog with
  | nil => rcases h with ⟨specs, hmem, _⟩; simp at hmem
  | cons s rest ih =>
      rcases h with ⟨specs, hmem, hspec⟩
      rcases List.mem_cons.mp hmem with h1 | h1
      · subst h1
        have hsp := findSpecLocal_isSome binding loc specs hspec
        simp only [findNamedImportLocal, if_pos rfl]
        match hfs : findSpecLocal binding specs with
        | some y => rfl
        | none => rw [hfs] at hsp; simp at hsp
      · have hrest : (findNamedImportLocal module binding rest).isSome :=
          ih ⟨specs, h1, hspec⟩
        match s with
        | .importDecl specs2 m2 =>
            by_cases hm : m2 = module
            · subst hm
              simp only [findNamedImportLocal, if_pos rfl]
              match hfs : findSpecLocal binding specs2 with
              | some y => rfl
              | none => exact hrest
            · simp only [findNamedImportLocal, if_neg hm]
              exact hrest
        | .exportDefault e => exact hrest
        | .assign o l r => exact hrest
        | .varDecl n i => exact hrest
        | .funcDecl n b => exact hrest
        | .ret e => exact hrest
        | .retVoid => exact hrest
        | .exprStmt e => exact hrest

theorem findNamedImportLocal_has (module binding : String) :
    ∀ (prog : List Stmt) (y : String),
      findNamedImportLocal module binding prog = some y →
      hasNamedImport module binding y prog := by
  intro prog
  induction prog with
  | nil => intro y h; simp [findNamedImportLocal] at h
  | cons s rest ih =>
      intro y h
      match s with
      | .importDecl specs m =>
          by_cases hm : m = module
          · subst hm
            simp only [findNamedImportLocal, if_pos rfl] at h
            match hfs : findSpecLocal binding specs with
            | some z =>
                rw [hfs] at h
                simp at h
                subst h
                exact ⟨specs, List.mem_cons_self _ _, findSpecLocal_mem binding specs _ hfs⟩
            | none =>
                rw [hfs] at h
                rcases ih y h with ⟨specs2, hmem, hspec⟩
                exact ⟨specs2, List.mem_cons_of_mem _ hmem, hspec⟩
          · simp only [findNamedImportLocal, if_neg hm] at h
            rcases ih y h with ⟨specs2, hmem, hspec⟩
            exact ⟨specs2, List.mem_cons_of_mem _ hmem, hspec⟩
      | .exportDefault e =>
          rcases ih y h with ⟨specs2, hmem, hspec⟩
          exact ⟨specs2, List.mem_cons_of_mem _ hmem, hspec⟩
      | .assign o l r =>
          rcases ih y h with ⟨specs2, hmem, hspec⟩
          exact ⟨specs2, List.mem_cons_of_mem _ hmem, hspec⟩
      | .varDecl n i =>
          rcases ih y h with ⟨specs2, hmem, hspec⟩
          exact ⟨specs2, List.mem_cons_of_mem _ hmem, hspec⟩
      | .funcDecl n b =>
          rcases ih y h with ⟨specs2, hmem, hspec⟩
          exact ⟨specs2, List.mem_cons_of_mem _ hmem, hspec⟩
      | .ret e =>
          rcases ih y h with ⟨specs2, hmem, hspec⟩
          exact ⟨specs2, List.mem_cons_of_mem _ hmem, hspec⟩
      | .retVoid =>
          rcases ih y h with ⟨specs2, hmem, hspec⟩
          exact ⟨specs2, List.mem_cons_of_mem _ hmem, hspec⟩
      | .exprStmt e =>
          rcases ih y h with ⟨specs2, hmem, hspec⟩
          exact ⟨specs2, List.mem_cons_of_mem _ hmem, hspec⟩

/-- C4: (i) if a module already imports binding X from module M under local
alias Y, the Import-ensure mutation for (M, X) inserts no new import
declaration, returns a name under which X is imported from M, and returns
exactly Y whenever Y is the only such alias; (ii) in the Vite
plugin-configuration task, if the file already has a default import with
local name `relay` from the plugin module, the Program visitor prepends no
new import to the file body. -/
theorem c4_import_reuse (M X Y : String) (prog : List Stmt) :
    (hasNamedImport M X Y prog →
      (insertNamedImport M X prog).2 = prog ∧
      hasNamedImport M X (insertNamedImport M X prog).1 prog ∧
      ((∀ y', hasNamedImport M X y' prog → y' = Y) →
        (insertNamedImport M X prog).1 = Y)) ∧
    ((∃ specs, Stmt.importDecl specs "vite-plugin-relay" ∈ prog ∧
        ImportSpec.dflt "relay" ∈ specs) →
      ensureRelayImport prog = prog) := by
  constructor
  · intro h
    have hsome := findNamedImportLocal_isSome M X Y prog h
    match hf : findNamedImportLocal M X prog with
    | some y =>
        have hy := findNamedImportLocal_has M X prog y hf
        refine ⟨by simp [insertNamedImport, hf], ?_, ?_⟩
        · simpa [insertNamedImport, hf] using hy
        · intro huniq
          simp only [insertNamedImport, hf]
          exact huniq y hy
    | none => rw [hf] at hsome; simp at hsome
  · rintro ⟨specs, hmem, hspec⟩
    have hany : prog.any (isRelayDefaultImport "relay") = true := by
      rw [List.any_eq_true]
      refine ⟨Stmt.importDecl specs "vite-plugin-relay", hmem, ?_⟩
      simp only [isRelayDefaultImport]
      rw [List.any_eq_true]
      exact ⟨ImportSpec.dflt "relay", hspec, by simp⟩
    simp [ensureRelayImport, hany]

/-- Witness for C4 at a concrete program: a file importing X from M under
alias Y, and a default `relay` import from vite-plugin-relay. -/
theorem c4_witness :
    (insertNamedImport "m" "X"
      [Stmt.importDecl [ImportSpec.named "X" "Y"] "m"]).2 =
      [Stmt.importDecl [ImportSpec.named "X" "Y"] "m"] ∧
    ensureRelayImport [Stmt.importDecl [ImportSpec.dflt "relay"] "vite-plugin-relay"] =
      [Stmt.importDecl [ImportSpec.dflt "relay"] "vite-plugin-relay"] := by
  constructor
  · exact ((c4_import_reuse "m" "X" "Y"
      [Stmt.importDecl [ImportSpec.named "X" "Y"] "m"]).1
      ⟨[ImportSpec.named "X" "Y"], by simp, by simp⟩).1
  · exact (c4_import_reuse "vite-plugin-relay" "X" "Y"
      [Stmt.importDecl [ImportSpec.dflt "relay"] "vite-plugin-relay"]).2
      ⟨[ImportSpec.dflt "relay"], by simp, by simp⟩

/-- AddRelayEnvironmentProviderTask.wrapJsxInProvider, after both imports
have been ensured: if the anchor's opening tag is a JSX identifier equal to
the provider's local name, the wrap is skipped (`none`); otherwise the
anchor is replaced by a provider-tagged element with a single `environment`
attribute holding the ensured environment identifier and the original
anchor as its sole child. -/
def wrapJsxInProvider (envName providerName : String) (j : Jsx) : Option Jsx :=
  match j with
  | .elem name _ _ =>
      if name = JsxName.ident providerName then none
      else some (.elem (.ident providerName)
          [.attr "environment" (.container (.ident envName))]
          [.elem j])

/-- C5: for every JSX anchor and ensured provider identifier, the JSX-wrap
mutation skips exactly when the anchor's opening tag name equals the
provider's local name, leaving the tree untouched; otherwise it produces a
new element whose tag is the provider identifier, carrying exactly the one
attribute `environment` whose value is an expression container around the
ensured environment identifier, with the original anchor as sole child. -/
theorem c5_wrap_jsx (envName providerName : String) (name : JsxName)
    (attrs : List JsxAttr) (children : List JsxChild) :
    (name = JsxName.ident providerName →
      wrapJsxInProvider envName providerName (.elem name attrs children) = none) ∧
    (name ≠ JsxName.ident providerName →
      wrapJsxInProvider envName providerName (.elem name attrs children) =
        some (.elem (.ident providerName)
          [.attr "environment" (.container (.ident envName))]
          [.elem (.elem name attrs children)])) := by
  constructor
  · intro h; simp [wrapJsxInProvider, h]
  · intro h; simp [wrapJsxInProvider, h]

/-- Witness for C5: the spec scenario, anchor App wrapped with
RelayEnvironmentProvider, and the wrapped output skipped on a re-run. -/
theorem c5_witness :
    wrapJsxInProvider "RelayEnvironment" "RelayEnvironmentProvider"
      (.elem (.ident "App") [] []) =
      some (.elem (.ident "RelayEnvironmentProvider")
        [.attr "environment" (.container (.ident "RelayEnvironment"))]
        [.elem (.elem (.ident "App") [] [])]) ∧
    wrapJsxInProvider "RelayEnvironment" "RelayEnvironmentProvider"
      (.elem (.ident "RelayEnvironmentProvider")
        [.attr "environment" (.container (.ident "RelayEnvironment"))]
        [.elem (.elem (.ident "App") [] [])]) = none := by
  constructor
  · exact (c5_wrap_jsx "RelayEnvironment" "RelayEnvironmentProvider"
      (.ident "App") [] []).2 (by decide)
  · exact (c5_wrap_jsx "RelayEnvironment" "RelayEnvironmentProvider"
      (.ident "RelayEnvironmentProvider")
      [.attr "environment" (.container (.ident "RelayEnvironment"))]
      [.elem (.elem (.ident "App") [] [])]).1 rfl

/-- Error thrown when an assignment in next.config.js is not of the form
module.exports = ... (or its right-hand side has an unsupported shape). -/
def errExpectedNext : String :=
  "Expected to find a module.exports assignment that exports the Next.js configuration from next.config.js."

/-- Error thrown when module.exports references a variable that does not
resolve to an object literal. -/
def errVarNext : String :=
  "module.exports in next.config.js references a variable, which is not a valid object definition."

/-- Error thrown when the `compiler` property of the Next.js configuration
object is not an object expression. -/
def errCompilerNext : String :=
  "Could not create or get a \"compiler\" property on the Next.js configuration object in next.config.js."

/-- Settings consumed by AddRelayPluginConfigurationTask.configureNext. -/
structure NextSettings where
  srcDirectoryPath : String
  useTypescript : Bool
  artifactDirectoryPath : Option String

/-- The value of the `relay` property pushed by configureNext: src, language
and, when configured, artifactDirectory. -/
def relayPropertyValue (s : NextSettings) : Expr :=
  .obj ([ObjProp.prop (.ident "src") (.strLit s.srcDirectoryPath),
         ObjProp.prop (.ident "language")
           (.strLit (getRelayCompilerLanguage s.useTypescript))] ++
    (match s.artifactDirectoryPath with
     | some a => [ObjProp.prop (.ident "artifactDirectory") (.strLit a)]
     | none => []))

/-- AddRelayPluginConfigurationTask.configureNext, mutation of the exported
configuration object: find or create the `compiler` property, fail if its
value is not an object expression, skip if a `relay` property already
exists (without comparing its value), otherwise push the `relay` property
after all existing properties. -/
def mutateNextConfigObj (relayVal : Expr) (props : List ObjProp) :
    Except String (List ObjProp) :=
  match findPropVal "compiler" props with
  | some (.obj cprops) =>
      if (findPropVal "relay" cprops).isSome then .ok props
      else .ok (replacePropVal "compiler"
          (.obj (cprops ++ [ObjProp.prop (.ident "relay") relayVal])) props)
  | some _ => .error errCompilerNext
  | none => .ok (props ++ [ObjProp.prop (.ident "compiler")
      (.obj [ObjProp.prop (.ident "relay") relayVal])])

/-- Source: `path.scope.getBinding(name)` at program scope: whether a statement
declares `x` (variable declarator, function declaration, or import). -/
def declaresName (x : String) : Stmt → Bool
  | .varDecl n _ => n = x
  | .funcDecl n _ => n = x
  | .importDecl specs _ =>
      specs.any fun sp =>
        match sp with
        | .dflt l => l = x
        | .named _ l => l = x
  | _ => false

/-- The binding of `x` in the program: the first statement declaring it. -/
def getBindingStmt (x : String) (prog : List Stmt) : Option Stmt :=
  prog.find? (declaresName x)

/-- configureNext's one-level indirection test, `binding and
isVariableDeclarator(binding.path.node) and isObjectExpression(init)`:
the object-literal properties behind the binding of `x`, when the binding
is a variable declarator initialized with an object literal. -/
def bindingObjProps (x : String) (prog : List Stmt) : Option (List ObjProp) :=
  match getBindingStmt x prog with
  | some (.varDecl _ (.obj ps)) => some ps
  | _ => none

/-- In-place update of the initializer of the first variable declarator
named `x`; `none` when no such declarator exists. -/
def replaceFirstVarInit (x : String) (v : Expr) : List Stmt → Option (List Stmt)
  | [] => none
  | .varDecl n i :: rest =>
      if n = x then some (.varDecl n v :: rest)
      else (replaceFirstVarInit x v rest).map (fun l => .varDecl n i :: l)
  | s :: rest => (replaceFirstVarInit x v rest).map (fun l => s :: l)

/-- Source: `isMemberExpression(left) and isIdentifier(object) and
isIdentifier(property) and object.name === "module" and
property.name === "exports"`. -/
def isModuleExportsLhs (l : Expr) : Bool :=
  match l with
  | .member (.ident o) (.ident p) => o = "module" && p = "exports"
  | _ => false

/-! Babel's traverse performs a depth-first walk of the whole tree and fires
the AssignmentExpression visitor once per assignment node at any depth,
entering a node before its subtrees.  The following family collects the
(operator, left, right) triples of every assignment in that visit order,
descending into function-declaration bodies, arrow-function bodies and
every expression position. -/
mutual

/-- Assignment sites of a statement list, in depth-first visit order. -/
def sitesStmts : List Stmt → List (String × Expr × Expr)
  | [] => []
  | s :: rest => sitesStmt s ++ sitesStmts rest

/-- Assignment sites of one statement, in depth-first visit order; an
assignment statement is itself a site, listed before the sites nested in
its own left- and right-hand sides. -/
def sitesStmt : Stmt → List (String × Expr × Expr)
  | .importDecl _ _ => []
  | .exportDefault e => sitesExpr e
  | .assign op l r => (op, l, r) :: (sitesExpr l ++ sitesExpr r)
  | .varDecl _ i => sitesExpr i
  | .funcDecl _ body => sitesStmts body
  | .ret e => sitesExpr e
  | .retVoid => []
  | .exprStmt e => sitesExpr e

/-- Assignment sites of one expression, in depth-first visit order. -/
def sitesExpr : Expr → List (String × Expr × Expr)
  | .ident _ => []
  | .strLit _ => []
  | .call c args => sitesExpr c ++ sitesExprs args
  | .member o p => sitesExpr o ++ sitesExpr p
  | .obj props => sitesProps props
  | .arr es => sitesExprs es
  | .jsx j => sitesJsx j
  | .arrowFun body => sitesStmts body

/-- Assignment sites of an expression list. -/
def sitesExprs : List Expr → List (String × Expr × Expr)
  | [] => []
  | e :: rest => sitesExpr e ++ sitesExprs rest

/-- Assignment sites of the members of an object literal. -/
def sitesProps : List ObjProp → List (String × Expr × Expr)
  | [] => []
  | .prop _ v :: rest => sitesExpr v ++ sitesProps rest
  | .spread e :: rest => sitesExpr e ++ sitesProps rest

/-- Assignment sites of a JSX element. -/
def sitesJsx : Jsx → List (String × Expr × Expr)
  | .elem _ attrs children => sitesAttrs attrs ++ sitesChildren children

/-- Assignment sites of a JSX attribute list. -/
def sitesAttrs : List JsxAttr → List (String × Expr × Expr)
  | [] => []
  | .attr _ v :: rest => sitesAttrVal v ++ sitesAttrs rest

/-- Assignment sites of a JSX attribute value. -/
def sitesAttrVal : JsxAttrVal → List (String × Expr × Expr)
  | .container e => sitesExpr e
  | .lit _ => []

/-- Assignment sites of a JSX child list. -/
def sitesChildren : List JsxChild → List (String × Expr × Expr)
  | [] => []
  | c :: rest => sitesChild c ++ sitesChildren rest

/-- Assignment sites of one JSX child. -/
def sitesChild : JsxChild → List (String × Expr × Expr)
  | .elem j => sitesJsx j
  | .container e => sitesExpr e
  | .text _ => []

end

/-! In-place replacement of the right-hand side of the assignment at
depth-first index `n` of the numbering produced by `sitesStmts`: the same
walk threads either the count of sites still to be skipped (`Sum.inl`) or
the done marker (`Sum.inr`) and rebuilds the tree around the one changed
node, modelling Babel's mutation of `node.right` at the visited path. -/
mutual

/-- Site-indexed right-hand-side replacement over a statement list. -/
def setSiteStmts : List Stmt → Nat → Expr → (Nat ⊕ Unit) × List Stmt
  | [], n, _ => (.inl n, [])
  | s :: rest, n, v =>
      match setSiteStmt s n v with
      | (Sum.inl n', s') =>
          match setSiteStmts rest n' v with
          | (st, rest') => (st, s' :: rest')
      | (Sum.inr u, s') => (.inr u, s' :: rest)

/-- Site-indexed right-hand-side replacement in one statement. -/
def setSiteStmt : Stmt → Nat → Expr → (Nat ⊕ Unit) × Stmt
  | .importDecl sp m, n, _ => (.inl n, .importDecl sp m)
  | .exportDefault e, n, v =>
      match setSiteExpr e n v with
      | (st, e') => (st, .exportDefault e')
  | .assign op l r, n, v =>
      if n = 0 then (.inr (), .assign op l v)
      else
        match setSiteExpr l (n - 1) v with
        | (Sum.inl n', l') =>
            match setSiteExpr r n' v with
            | (st, r') => (st, .assign op l' r')
        | (Sum.inr u, l') => (.inr u, .assign op l' r)
  | .varDecl x i, n, v =>
      match setSiteExpr i n v with
      | (st, i') => (st, .varDecl x i')
  | .funcDecl f body, n, v =>
      match setSiteStmts body n v with
      | (st, body') => (st, .funcDecl f body')
  | .ret e, n, v =>
      match setSiteExpr e n v with
      | (st, e') => (st, .ret e')
  | .retVoid, n, _ => (.inl n, .retVoid)
  | .exprStmt e, n, v =>
      match setSiteExpr e n v with
      | (st, e') => (st, .exprStmt e')

/-- Site-indexed right-hand-side replacement in one expression. -/
def setSiteExpr : Expr → Nat → Expr → (Nat ⊕ Unit) × Expr
  | .ident x, n, _ => (.inl n, .ident x)
  | .strLit s, n, _ => (.inl n, .strLit s)
  | .call c args, n, v =>
      match setSiteExpr c n v with
      | (Sum.inl n', c') =>
          match setSiteExprs args n' v with
          | (st, args') => (st, .call c' args')
      | (Sum.inr u, c') => (.inr u, .call c' args)
  | .member o p, n, v =>
      match setSiteExpr o n v with
      | (Sum.inl n', o') =>
          match setSiteExpr p n' v with
          | (st, p') => (st, .member o' p')
      | (Sum.inr u, o') => (.inr u, .member o' p)
  | .obj props, n, v =>
      match setSiteProps props n v with
      | (st, props') => (st, .obj props')
  | .arr es, n, v =>
      match setSiteExprs es n v with
      | (st, es') => (st, .arr es')
  | .jsx j, n, v =>
      match setSiteJsx j n v with
      | (st, j') => (st, .jsx j')
  | .arrowFun body, n, v =>
      match setSiteStmts body n v with
      | (st, body') => (st, .arrowFun body')

/-- Site-indexed right-hand-side replacement over an expression list. -/
def setSiteExprs : List Expr → Nat → Expr → (Nat ⊕ Unit) × List Expr
  | [], n, _ => (.inl n, [])
  | e :: rest, n, v =>
      match setSiteExpr e n v with
      | (Sum.inl n', e') =>
          match setSiteExprs rest n' v with
          | (st, rest') => (st, e' :: rest')
      | (Sum.inr u, e') => (.inr u, e' :: rest)

/-- Site-indexed right-hand-side replacement over object-literal members. -/
def setSiteProps : List ObjProp → Nat → Expr → (Nat ⊕ Unit) × List ObjProp
  | [], n, _ => (.inl n, [])
  | .prop k w :: rest, n, v =>
      match setSiteExpr w n v with
      | (Sum.inl n', w') =>
          match setSiteProps rest n' v with
          | (st, rest') => (st, .prop k w' :: rest')
      | (Sum.inr u, w') => (.inr u, .prop k w' :: rest)
  | .spread e :: rest, n, v =>
      match setSiteExpr e n v with
      | (Sum.inl n', e') =>
          match setSiteProps rest n' v with
          | (st, rest') => (st, .spread e' :: rest')
      | (Sum.inr u, e') => (.inr u, .spread e' :: rest)

/-- Site-indexed right-hand-side replacement in a JSX element. -/
def setSiteJsx : Jsx → Nat → Expr → (Nat ⊕ Unit) × Jsx
  | .elem nm attrs children, n, v =>
      match setSiteAttrs attrs n v with
      | (Sum.inl n', attrs') =>
          match setSiteChildren children n' v with
          | (st, children') => (st, .elem nm attrs' children')
      | (Sum.inr u, attrs') => (.inr u, .elem nm attrs' children)

/-- Site-indexed right-hand-side replacement over a JSX attribute list. -/
def setSiteAttrs : List JsxAttr → Nat → Expr → (Nat ⊕ Unit) × List JsxAttr
  | [], n, _ => (.inl n, [])
  | .attr a w :: rest, n, v =>
      match setSiteAttrVal w n v with
      | (Sum.inl n', w') =>
          match setSiteAttrs rest n' v with
          | (st, rest') => (st, .attr a w' :: rest')
      | (Sum.inr u, w') => (.inr u, .attr a w' :: rest)

/-- Site-indexed right-hand-side replacement in a JSX attribute value. -/
def setSiteAttrVal : JsxAttrVal → Nat → Expr → (Nat ⊕ Unit) × JsxAttrVal
  | .container e, n, v =>
      match setSiteExpr e n v with
      | (st, e') => (st, .container e')
  | .lit s, n, _ => (.inl n, .lit s)

/-- Site-indexed right-hand-side replacement over a JSX child list. -/
def setSiteChildren : List JsxChild → Nat → Expr → (Nat ⊕ Unit) × List JsxChild
  | [], n, _ => (.inl n, [])
  | c :: rest, n, v =>
      match setSiteChild c n v with
      | (Sum.inl n', c') =>
          match setSiteChildren rest n' v with
          | (st, rest') => (st, c' :: rest')
      | (Sum.inr u, c') => (.inr u, c' :: rest)

/-- Site-indexed right-hand-side replacement in one JSX child. -/
def setSiteChild : JsxChild → Nat → Expr → (Nat ⊕ Unit) × JsxChild
  | .elem j, n, v =>
      match setSiteJsx j n v with
      | (st, j') => (st, .elem j')
  | .container e, n, v =>
      match setSiteExpr e n v with
      | (st, e') => (st, .container e')
  | .text s, n, _ => (.inl n, .text s)

end

/-- AddRelayPluginConfigurationTask.configureNext, body of the
AssignmentExpression visitor, applied to the assignment at depth-first
index `i` of the current tree: any visited assignment that is not
literally `module.exports = ...` aborts the task; `module.exports = x`
resolves the binding of `x` (`path.scope.getBinding`, at the program scope
holding a configuration file's module.exports statement) and mutates the
object literal initializing its declarator in place; `module.exports`
of an object literal mutates that literal in place at the visited site. -/
def visitAssignSite (relayVal : Expr) (prog : List Stmt) (i : Nat) :
    Except String (List Stmt) :=
  match (sitesStmts prog)[i]? with
  | none => .ok prog
  | some (op, l, r) =>
      if op = "=" && isModuleExportsLhs l then
        match r with
        | .ident x =>
            match getBindingStmt x prog with
            | some (.varDecl _ (.obj ps)) =>
                match mutateNextConfigObj relayVal ps with
                | .error m => .error m
                | .ok ps' =>
                    match replaceFirstVarInit x (.obj ps') prog with
                    | some prog' => .ok prog'
                    | none => .error errVarNext
            | _ => .error errVarNext
        | .obj ps =>
            match mutateNextConfigObj relayVal ps with
            | .error m => .error m
            | .ok ps' => .ok (setSiteStmts prog i (.obj ps')).2
        | _ => .error errExpectedNext
      else .error errExpectedNext

/-- Depth-first visitor loop of configureNext: the visitor fires once per
assignment node in visit order, each time on the current (already
partially mutated) tree; a throw aborts the whole traversal. -/
def nextVisitLoop (relayVal : Expr) : Nat → Nat → List Stmt → Except String (List Stmt)
  | 0, _, prog => .ok prog
  | k + 1, i, prog =>
      match visitAssignSite relayVal prog i with
      | .error m => .error m
      | .ok prog' => nextVisitLoop relayVal k (i + 1) prog'

/-- AddRelayPluginConfigurationTask.configureNext on the parsed config file:
one visitor call per assignment site of the input tree, in depth-first
order (the material the visitor inserts consists of string-literal
properties and contains no assignments, so the mutations leave the list of
sites unchanged while the traversal runs); `.ok` is the tree written back,
`.error` aborts the task before the write. -/
def configureNext (relayVal : Expr) (prog : List Stmt) : Except String (List Stmt) :=
  nextVisitLoop relayVal (sitesStmts prog).length 0 prog

/-- C7: the property-upsert over the Next.js `compiler` object: when any
`relay` property already exists, the mutation returns the object unchanged
without comparing the existing value to the desired one (presence alone is
the idempotency signal); when it is absent, the new `relay` property is
appended after all existing properties of the compiler object, preserving
their order. -/
theorem c7_property_upsert (relayVal : Expr) (props cprops : List ObjProp)
    (hc : findPropVal "compiler" props = some (.obj cprops)) :
    (∀ v : Expr, findPropVal "relay" cprops = some v →
      mutateNextConfigObj relayVal props = .ok props) ∧
    (findPropVal "relay" cprops = none →
      mutateNextConfigObj relayVal props = .ok (replacePropVal "compiler"
        (.obj (cprops ++ [ObjProp.prop (.ident "relay") relayVal])) props)) := by
  constructor
  · intro v hv
    have hsome : (findPropVal "relay" cprops).isSome := by rw [hv]; rfl
    simp [mutateNextConfigObj, hc, hsome]
  · intro hnone
    simp [mutateNextConfigObj, hc, hnone]

/-- Witness for C7: a compiler object whose existing `relay` property has a
value different from the one that would be inserted; the mutation still
skips, and on an object without `relay` the property is appended last. -/
theorem c7_witness :
    mutateNextConfigObj (Expr.obj [])
      [ObjProp.prop (.ident "compiler")
        (.obj [ObjProp.prop (.ident "relay") (.strLit "different")])] =
      .ok [ObjProp.prop (.ident "compiler")
        (.obj [ObjProp.prop (.ident "relay") (.strLit "different")])] ∧
    mutateNextConfigObj (Expr.obj [])
      [ObjProp.prop (.ident "compiler")
        (.obj [ObjProp.prop (.ident "removeConsole") (.strLit "x")])] =
      .ok [ObjProp.prop (.ident "compiler")
        (.obj [ObjProp.prop (.ident "removeConsole") (.strLit "x"),
               ObjProp.prop (.ident "relay") (Expr.obj [])])] := by
  constructor
  · exact (c7_property_upsert (Expr.obj [])
      [ObjProp.prop (.ident "compiler")
        (.obj [ObjProp.prop (.ident "relay") (.strLit "different")])]
      [ObjProp.prop (.ident "relay") (.strLit "different")] rfl).1
      (.strLit "different") rfl
  · exact (c7_property_upsert (Expr.obj [])
      [ObjProp.prop (.ident "compiler")
        (.obj [ObjProp.prop (.ident "removeConsole") (.strLit "x")])]
      [ObjProp.prop (.ident "removeConsole") (.strLit "x")] rfl).2 rfl

/-- The statement `module.exports = r`. -/
def moduleExportsAssign (r : Expr) : Stmt :=
  .assign "=" (Expr.member (.ident "module") (.ident "exports")) r

theorem replaceFirstVarInit_isSome_of_mem (x : String) (v : Expr) :
    ∀ (prog : List Stmt) (i : Expr), Stmt.varDecl x i ∈ prog →
      (replaceFirstVarInit x v prog).isSome := by
  intro prog
  induction prog with
  | nil => intro i h; simp at h
  | cons s rest ih =>
      intro i h
      rcases List.mem_cons.mp h with h1 | h1
      · subst h1
        simp [replaceFirstVarInit]
      · have hrest := ih i h1
        match s with
        | .varDecl n j =>
            by_cases hn : n = x
            · simp [replaceFirstVarInit, hn]
            · simp only [replaceFirstVarInit, if_neg hn]
              cases hrep : replaceFirstVarInit x v rest with
              | some l => simp
              | none => rw [hrep] at hrest; simp at hrest
        | .importDecl sp m =>
            simp only [replaceFirstVarInit]
            cases hrep : replaceFirstVarInit x v rest with
            | some l => simp
            | none => rw [hrep] at hrest; simp at hrest
        | .exportDefault e =>
            simp only [replaceFirstVarInit]
            cases hrep : replaceFirstVarInit x v rest with
            | some l => simp
            | none => rw [hrep] at hrest; simp at hrest
        | .assign o a b =>
            simp only [replaceFirstVarInit]
            cases hrep : replaceFirstVarInit x v rest with
            | some l => simp
            | none => rw [hrep] at hrest; simp at hrest
        | .funcDecl n b =>
            simp only [replaceFirstVarInit]
            cases hrep : replaceFirstVarInit x v rest with
            | some l => simp
            | none => rw [hrep] at hrest; simp at hrest
        | .ret e =>
            simp only [replaceFirstVarInit]
            cases hrep : replaceFirstVarInit x v rest with
            | some l => simp
            | none => rw [hrep] at hrest; simp at hrest
        | .retVoid =>
            simp only [replaceFirstVarInit]
            cases hrep : replaceFirstVarInit x v rest with
            | some l => simp
            | none => rw [hrep] at hrest; simp at hrest
        | .exprStmt e =>
            simp only [replaceFirstVarInit]
            cases hrep : replaceFirstVarInit x v rest with
            | some l => simp
            | none => rw [hrep] at hrest; simp at hrest

theorem bindingObjProps_some (x : String) (prog : List Stmt) (ps : List ObjProp)
    (h : bindingObjProps x prog = some ps) :
    getBindingStmt x prog = some (.varDecl x (.obj ps)) := by
  unfold bindingObjProps at h
  match hb : getBindingStmt x prog with
  | some (.varDecl y (.obj ps0)) =>
      rw [hb] at h
      simp at h
      have hdecl : declaresName x (Stmt.varDecl y (Expr.obj ps0)) = true :=
        List.find?_some hb
      simp [declaresName] at hdecl
      rw [hdecl, h]
  | some (.varDecl y (.ident s)) => rw [hb] at h; simp at h
  | some (.varDecl y (.strLit s)) => rw [hb] at h; simp at h
  | some (.varDecl y (.call c a)) => rw [hb] at h; simp at h
  | some (.varDecl y (.member o p)) => rw [hb] at h; simp at h
  | some (.varDecl y (.arr es)) => rw [hb] at h; simp at h
  | some (.varDecl y (.jsx j)) => rw [hb] at h; simp at h
  | some (.varDecl y (.arrowFun b)) => rw [hb] at h; simp at h
  | some (.importDecl sp m) => rw [hb] at h; simp at h
  | some (.exportDefault e) => rw [hb] at h; simp at h
  | some (.assign o a b) => rw [hb] at h; simp at h
  | some (.funcDecl n b) => rw [hb] at h; simp at h
  | some (.ret e) => rw [hb] at h; simp at h
  | some .retVoid => rw [hb] at h; simp at h
  | some (.exprStmt e) => rw [hb] at h; simp at h
  | none => rw [hb] at h; simp at h

theorem sitesStmts_append (l1 l2 : List Stmt) :
    sitesStmts (l1 ++ l2) = sitesStmts l1 ++ sitesStmts l2 := by
  induction l1 with
  | nil => simp [sitesStmts]
  | cons s rest ih => simp [sitesStmts, ih]

theorem nextVisitLoop_one (rv : Expr) (i : Nat) (prog : List Stmt) :
    nextVisitLoop rv 1 i prog =
      match visitAssignSite rv prog i with
      | .error m => .error m
      | .ok prog' => nextVisitLoop rv 0 (i + 1) prog' := rfl

/-- C6: for every Next.js configuration file whose only assignment anywhere
in the tree is a top-level module.exports assignment with an identifier
right-hand side (the depth-first traversal aborts on any other assignment
it meets), the exported-object matcher resolves exactly one level of
indirection through that identifier's binding: when the binding is a
variable declarator initialized with an object literal, that object
literal becomes the anchor (the task's outcome is exactly the outcome of
mutating it, written back into the declarator); when the binding is
missing, not a variable declarator, or initialized with anything else, the
task fails with the unsupported-shape error and no tree is produced (so
the file is never written). -/
theorem c6_next_indirection (rv : Expr) (pre post : List Stmt) (x : String)
    (hpre : sitesStmts pre = []) (hpost : sitesStmts post = []) :
    (∀ ps : List ObjProp,
      bindingObjProps x (pre ++ moduleExportsAssign (Expr.ident x) :: post) = some ps →
      configureNext rv (pre ++ moduleExportsAssign (Expr.ident x) :: post) =
        (match mutateNextConfigObj rv ps with
         | .ok ps' => .ok ((replaceFirstVarInit x (Expr.obj ps')
             (pre ++ moduleExportsAssign (Expr.ident x) :: post)).getD
             (pre ++ moduleExportsAssign (Expr.ident x) :: post))
         | .error m => .error m)) ∧
    (bindingObjProps x (pre ++ moduleExportsAssign (Expr.ident x) :: post) = none →
      configureNext rv (pre ++ moduleExportsAssign (Expr.ident x) :: post) =
        .error errVarNext) := by
  have hsites : sitesStmts (pre ++ moduleExportsAssign (Expr.ident x) :: post) =
      [("=", Expr.member (Expr.ident "module") (Expr.ident "exports"), Expr.ident x)] := by
    rw [sitesStmts_append, hpre]
    simp [sitesStmts, sitesStmt, sitesExpr, moduleExportsAssign, hpost]
  have hlen : (sitesStmts (pre ++ moduleExportsAssign (Expr.ident x) :: post)).length
      = 1 := by
    rw [hsites]
    rfl
  constructor
  · intro ps hps
    have hbind := bindingObjProps_some x _ ps hps
    unfold configureNext
    rw [hlen, nextVisitLoop_one]
    match hm : mutateNextConfigObj rv ps with
    | .error m =>
        simp [visitAssignSite, hsites, isModuleExportsLhs, hbind, hm]
    | .ok ps' =>
        cases hrep : replaceFirstVarInit x (Expr.obj ps')
            (pre ++ moduleExportsAssign (Expr.ident x) :: post) with
        | some prog' =>
            simp [visitAssignSite, nextVisitLoop, hsites, isModuleExportsLhs,
              hbind, hm, hrep]
        | none =>
            exfalso
            have hmem : Stmt.varDecl x (Expr.obj ps) ∈
                (pre ++ moduleExportsAssign (Expr.ident x) :: post) :=
              List.mem_of_find?_eq_some hbind
            have hsome := replaceFirstVarInit_isSome_of_mem x (Expr.obj ps') _
              (Expr.obj ps) hmem
            rw [hrep] at hsome
            simp at hsome
  · intro hnone
    unfold configureNext
    rw [hlen, nextVisitLoop_one]
    unfold bindingObjProps at hnone
    match hgb : getBindingStmt x (pre ++ moduleExportsAssign (Expr.ident x) :: post) with
    | some (.varDecl y (.obj ps0)) => rw [hgb] at hnone; simp at hnone
    | some (.varDecl y (.ident s)) =>
        simp [visitAssignSite, hsites, isModuleExportsLhs, hgb]
    | some (.varDecl y (.strLit s)) =>
        simp [visitAssignSite, hsites, isModuleExportsLhs, hgb]
    | some (.varDecl y (.call c a)) =>
        simp [visitAssignSite, hsites, isModuleExportsLhs, hgb]
    | some (.varDecl y (.member o p)) =>
        simp [visitAssignSite, hsites, isModuleExportsLhs, hgb]
    | some (.varDecl y (.arr es)) =>
        simp [visitAssignSite, hsites, isModuleExportsLhs, hgb]
    | some (.varDecl y (.jsx j)) =>
        simp [visitAssignSite, hsites, isModuleExportsLhs, hgb]
    | some (.varDecl y (.arrowFun b)) =>
        simp [visitAssignSite, hsites, isModuleExportsLhs, hgb]
    | some (.importDecl sp m) =>
        simp [visitAssignSite, hsites, isModuleExportsLhs, hgb]
    | some (.exportDefault e) =>
        simp [visitAssignSite, hsites, isModuleExportsLhs, hgb]
    | some (.assign o a b) =>
        simp [visitAssignSite, hsites, isModuleExportsLhs, hgb]
    | some (.funcDecl n b) =>
        simp [visitAssignSite, hsites, isModuleExportsLhs, hgb]
    | some (.ret e) =>
        simp [visitAssignSite, hsites, isModuleExportsLhs, hgb]
    | some .retVoid =>
        simp [visitAssignSite, hsites, isModuleExportsLhs, hgb]
    | some (.exprStmt e) =>
        simp [visitAssignSite, hsites, isModuleExportsLhs, hgb]
    | none =>
        simp [visitAssignSite, hsites, isModuleExportsLhs, hgb]

/-- Witness for C6: `const nextConfig = <obj>; module.exports = nextConfig`
resolves through the binding and rewrites the declarator's object literal. -/
theorem c6_witness :
    configureNext (Expr.obj [])
      [Stmt.varDecl "nextConfig" (Expr.obj []),
       moduleExportsAssign (Expr.ident "nextConfig")] =
    .ok [Stmt.varDecl "nextConfig" (Expr.obj [ObjProp.prop (.ident "compiler")
          (.obj [ObjProp.prop (.ident "relay") (Expr.obj [])])]),
         moduleExportsAssign (Expr.ident "nextConfig")] := by
  have h := (c6_next_indirection (Expr.obj [])
    [Stmt.varDecl "nextConfig" (Expr.obj [])] [] "nextConfig"
    (by simp [sitesStmts, sitesStmt, sitesExpr, sitesProps])
    (by simp [sitesStmts])).1 [] rfl
  exact h.trans (by rfl)

/-- A (relative, absolute) pair of forms of one resolved path. -/
structure PathPair where
  rel : String
  abs : String

/-- The slice of ProjectContext consumed by GenerateArtifactDirectoryTask:
the optional artifact path and the filesystem collaborator's `exists`. -/
structure ArtifactCtx where
  artifactPath : Option PathPair
  existsDir : String → Bool

/-- Outcome of one task run (TaskBase: a run that calls skip ends Skipped,
otherwise it succeeds). -/
inductive TaskOutcome where
  | succeeded : TaskOutcome
  | skipped : String → TaskOutcome

/-- GenerateArtifactDirectoryTask.isEnabled: truthiness of
`context.artifactPath`. -/
def artifactIsEnabled (ctx : ArtifactCtx) : Bool :=
  ctx.artifactPath.isSome

/-- GenerateArtifactDirectoryTask.run: returns immediately without an
artifact path; skips when the directory exists; otherwise requests creation
of the artifact path's absolute form.  The second component is the list of
createDirectory calls issued. -/
def runGenerateArtifactDirectory (ctx : ArtifactCtx) : TaskOutcome × List String :=
  match ctx.artifactPath with
  | none => (.succeeded, [])
  | some p =>
      if ctx.existsDir p.abs then (.skipped "Directory exists", [])
      else (.succeeded, [p.abs])

/-- C8: the artifact-directory task's isEnabled predicate is true exactly
when the context has an artifact path; when the task runs with an artifact
path whose directory exists, the outcome is Skipped and no createDirectory
call is issued; when the directory does not exist, exactly one
createDirectory call is issued, with the artifact path's absolute form. -/
theorem c8_artifact_directory (ctx : ArtifactCtx) :
    (artifactIsEnabled ctx = true ↔ ctx.artifactPath.isSome) ∧
    (∀ p : PathPair, ctx.artifactPath = some p →
      (ctx.existsDir p.abs = true →
        runGenerateArtifactDirectory ctx = (.skipped "Directory exists", [])) ∧
      (ctx.existsDir p.abs = false →
        runGenerateArtifactDirectory ctx = (.succeeded, [p.abs]))) := by
  constructor
  · simp [artifactIsEnabled]
  · intro p hp
    constructor
    · intro hex
      simp [runGenerateArtifactDirectory, hp, hex]
    · intro hex
      simp [runGenerateArtifactDirectory, hp, hex]

/-- Witness for C8: a context whose artifact directory does not exist gets
exactly one createDirectory call with the absolute path. -/
theorem c8_witness :
    runGenerateArtifactDirectory
      ⟨some ⟨"./rel", "/abs"⟩, fun _ => false⟩ = (.succeeded, ["/abs"]) :=
  ((c8_artifact_directory ⟨some ⟨"./rel", "/abs"⟩, fun _ => false⟩).2
    ⟨"./rel", "/abs"⟩ rfl).2 rfl

/-- A filesystem path in component form: whether it is absolute, plus its
normalized components (the form Node's path.join produces). -/
structure NPath where
  absolute : Bool
  comps : List String
deriving DecidableEq

/-- One step of Node path normalization over a component: empty and `.`
segments vanish; `..` pops a preceding normal component, is dropped at the
root of an absolute path, and accumulates at the front of a relative path;
normal components are kept.  `acc` is the processed prefix, reversed. -/
def normStep (absolute : Bool) (acc : List String) (c : String) : List String :=
  if c = "" ∨ c = "." then acc
  else if c = ".." then
    match acc with
    | [] => if absolute then [] else [".."]
    | a :: rest => if a = ".." then c :: acc else rest
  else c :: acc

/-- Node path normalization of a component list. -/
def normComps (absolute : Bool) (cs : List String) : List String :=
  (cs.foldl (normStep absolute) []).reverse

/-- Source: `path.join(directory, "..")` of helpers.ts traverseUpToFindFile. -/
def joinParent (d : NPath) : NPath :=
  ⟨d.absolute, normComps d.absolute (d.comps ++ [".."])⟩

/-- Source: `path.join(directory, filename)` of findFileInDirectory. -/
def joinFile (d : NPath) (fname : String) : NPath :=
  ⟨d.absolute, normComps d.absolute (d.comps ++ [fname])⟩

/-- helpers.ts traverseUpToFindFile with explicit fuel: each loop iteration
looks for the file in the current directory (`hasFile` models
findFileInDirectory returning non-null), then joins with ".." and stops
with null when the join is a fixpoint (the comment says: we reached the
root).  `none` means the fuel ran out with the loop still running; `some r`
is the function's result r. -/
def traverseUpToFindFileFuel (hasFile : NPath → Bool) (fname : String) :
    Nat → NPath → Option (Option NPath)
  | 0, _ => none
  | n + 1, d =>
      if hasFile d then some (some (joinFile d fname))
      else
        if joinParent d = d then some none
        else traverseUpToFindFileFuel hasFile fname n (joinParent d)

theorem normStep_dots (j : Nat) :
    normStep false (List.replicate j "..") ".." = List.replicate (j + 1) ".." := by
  match j with
  | 0 => rfl
  | k + 1 => rfl

theorem foldl_dots :
    ∀ m j : Nat,
      List.foldl (normStep false) (List.replicate j "..") (List.replicate m "..") =
        List.replicate (j + m) ".." := by
  intro m
  induction m with
  | zero => intro j; simp
  | succ k ih =>
      intro j
      rw [List.replicate_succ, List.foldl_cons, normStep_dots j, ih (j + 1)]
      congr 1
      omega

theorem joinParent_dots (k : Nat) :
    joinParent ⟨false, List.replicate (k + 1) ".."⟩ =
      ⟨false, List.replicate (k + 2) ".."⟩ := by
  unfold joinParent normComps
  simp only
  rw [show List.replicate (k + 1) ".." ++ [".."] = List.replicate (k + 2) ".." from
    (List.replicate_succ' (k + 1) "..").symm]
  rw [show List.replicate (k + 2) ".." = List.replicate (0 + (k + 2)) ".." by simp]
  rw [show List.foldl (normStep false) [] (List.replicate (0 + (k + 2)) "..") =
      List.foldl (normStep false) (List.replicate 0 "..") (List.replicate (0 + (k + 2)) "..") from rfl]
  rw [foldl_dots (0 + (k + 2)) 0]
  simp

/-- C9 counterexample: started from the relative directory "..", with a
filesystem in which the file is never found, the loop of
traverseUpToFindFile never reaches a join fixpoint — the current directory
grows "../..", "../../..", ... forever — so no amount of fuel completes it:
the claim that the function terminates for every starting directory fails. -/
theorem c9_counterexample :
    ¬ ∃ n : Nat, (traverseUpToFindFileFuel (fun _ => false) "package.json" n
      ⟨false, [".."]⟩).isSome = true := by
  rintro ⟨n, hn⟩
  have key : ∀ (m : Nat) (k : Nat),
      traverseUpToFindFileFuel (fun _ => false) "package.json" m
        ⟨false, List.replicate (k + 1) ".."⟩ = none := by
    intro m
    induction m with
    | zero => intro k; rfl
    | succ j ih =>
        intro k
        have hne : ¬ (joinParent ⟨false, List.replicate (k + 1) ".."⟩ =
            (⟨false, List.replicate (k + 1) ".."⟩ : NPath)) := by
          rw [joinParent_dots k]
          intro hcon
          have hlen := congrArg (fun p : NPath => p.comps.length) hcon
          simp at hlen
        simp only [traverseUpToFindFileFuel, Bool.false_eq_true, if_false]
        rw [if_neg hne, joinParent_dots k]
        exact ih (k + 1)
  have h1 : traverseUpToFindFileFuel (fun _ => false) "package.json" n
      ⟨false, [".."]⟩ = none := key n 0
  rw [h1] at hn
  simp at hn

/-- A path component that is neither empty nor "." nor ".." (the shape of
every component of a normalized absolute path). -/
def normalComp (c : String) : Bool :=
  c ≠ "" && c ≠ "." && c ≠ ".."

theorem foldl_normal :
    ∀ cs acc : List String, cs.all normalComp = true →
      List.foldl (normStep true) acc cs = cs.reverse ++ acc := by
  intro cs
  induction cs with
  | nil => intro acc _; simp
  | cons c cs' ih =>
      intro acc hall
      simp only [List.all_cons, Bool.and_eq_true] at hall
      obtain ⟨hc, hcs⟩ := hall
      simp only [normalComp, Bool.and_eq_true, bne_iff_ne, ne_eq,
        decide_eq_true_eq] at hc
      have hstep : normStep true acc c = c :: acc := by
        unfold normStep
        rw [if_neg (by simp [hc.1.1, hc.1.2]), if_neg (by simp [hc.2])]
      rw [List.foldl_cons, hstep, ih (c :: acc) hcs]
      simp

theorem normComps_dropLast (cs : List String) (hall : cs.all normalComp = true) :
    normComps true (cs ++ [".."]) = cs.dropLast := by
  unfold normComps
  rw [List.foldl_append, foldl_normal cs [] hall]
  rcases List.eq_nil_or_concat cs with rfl | ⟨init, last, rfl⟩
  · rfl
  · simp only [List.concat_eq_append] at hall ⊢
    have hlast : normalComp last = true := by
      rw [List.all_eq_true] at hall
      exact hall last (by simp)
    simp only [normalComp, Bool.and_eq_true, bne_iff_ne, ne_eq,
      decide_eq_true_eq] at hlast
    rw [List.reverse_concat' init last]
    simp only [List.foldl_cons, List.foldl_nil, List.append_nil]
    unfold normStep
    rw [if_neg (by simp), if_pos rfl]
    simp [hlast.2, List.dropLast_concat]

theorem joinParent_abs (cs : List String) (hall : cs.all normalComp = true) :
    joinParent ⟨true, cs⟩ = ⟨true, cs.dropLast⟩ := by
  unfold joinParent
  simp only
  rw [normComps_dropLast cs hall]

theorem traverseUp_abs (hasFile : NPath → Bool) (fname : String) :
    ∀ (n : Nat) (cs : List String), cs.length ≤ n → cs.all normalComp = true →
      (traverseUpToFindFileFuel hasFile fname (n + 1) ⟨true, cs⟩).isSome = true := by
  intro n
  induction n with
  | zero =>
      intro cs hlen hall
      have hcs : cs = [] := List.length_eq_zero.mp (Nat.le_zero.mp hlen)
      subst hcs
      by_cases hhf : hasFile ⟨true, []⟩
      · simp [traverseUpToFindFileFuel, hhf]
      · have hroot : joinParent ⟨true, ([] : List String)⟩ = ⟨true, []⟩ := rfl
        simp [traverseUpToFindFileFuel, hhf, hroot]
  | succ m ih =>
      intro cs hlen hall
      by_cases hhf : hasFile ⟨true, cs⟩
      · simp [traverseUpToFindFileFuel, hhf]
      · have hjp := joinParent_abs cs hall
        by_cases heq : joinParent ⟨true, cs⟩ = ⟨true, cs⟩
        · simp [traverseUpToFindFileFuel, hhf, heq]
        · have hnil : cs ≠ [] := by
            intro hcon
            subst hcon
            exact heq rfl
          have hall' : cs.dropLast.all normalComp = true := by
            rw [List.all_eq_true] at hall ⊢
            intro x hx
            exact hall x (List.dropLast_subset cs hx)
          have hlen' : cs.dropLast.length ≤ m := by
            have hpos : 0 < cs.length := List.length_pos.mpr hnil
            simp only [List.length_dropLast]
            omega
          have hrec := ih cs.dropLast hlen' hall'
          simp only [traverseUpToFindFileFuel]
          rw [if_neg hhf, if_neg heq, hjp]
          exact hrec

/-- C9 amended: joining the filesystem root with ".." is a fixpoint (the
loop's stop condition), and for every absolute starting directory in
normalized component form the loop of traverseUpToFindFile terminates
within depth + 1 iterations, for every filesystem and file name. -/
theorem c9_amended_terminates (hasFile : NPath → Bool) (fname : String)
    (d : NPath) (habs : d.absolute = true)
    (hnorm : d.comps.all normalComp = true) :
    joinParent ⟨true, []⟩ = ⟨true, []⟩ ∧
    (traverseUpToFindFileFuel hasFile fname (d.comps.length + 1) d).isSome = true := by
  refine ⟨rfl, ?_⟩
  have hd : d = ⟨true, d.comps⟩ := by
    cases d with
    | mk a c => simp at habs; rw [habs]
  rw [hd]
  exact traverseUp_abs hasFile fname d.comps.length d.comps (Nat.le_refl _) hnorm

/-- Witness for C9 (amended): the absolute directory /home/user with a
filesystem never containing the file terminates within 3 iterations. -/
theorem c9_witness :
    (traverseUpToFindFileFuel (fun _ => false) "package.json" 3
      ⟨true, ["home", "user"]⟩).isSome = true :=
  (c9_amended_terminates (fun _ => false) "package.json"
    ⟨true, ["home", "user"]⟩ rfl rfl).2

/-- JavaScript `input.split(sep)` over a string modelled as a char list
(path.sep is a single character on both platforms): splits at every
occurrence of the separator, keeping empty pieces. -/
def splitOnC (sep : Char) : List Char → List (List Char)
  | [] => [[]]
  | c :: cs =>
      if c = sep then [] :: splitOnC sep cs
      else
        match splitOnC sep cs with
        | [] => [[c]]
        | p :: ps => (c :: p) :: ps

/-- JavaScript `pieces.join(sep)`. -/
def joinSep (sep : List Char) : List (List Char) → List Char
  | [] => []
  | [x] => x
  | x :: y :: rest => x ++ sep ++ joinSep sep (y :: rest)

/-- helpers normalizePath, with strings as char lists and path.sep a
parameter: split the input on the platform separator, join with "/", and
prepend "./" unless the result already starts with ".." or "./". -/
def normalizePath (sep : Char) (input : List Char) : List Char :=
  let unixPath := joinSep ['/'] (splitOnC sep input)
  if !(['.', '.'].isPrefixOf unixPath) && !(['.', '/'].isPrefixOf unixPath)
  then '.' :: '/' :: unixPath
  else unixPath

theorem splitOnC_ne_nil (sep : Char) : ∀ l : List Char, splitOnC sep l ≠ [] := by
  intro l
  match l with
  | [] => simp [splitOnC]
  | c :: cs =>
      by_cases hc : c = sep
      · simp [splitOnC, hc]
      · simp only [splitOnC, if_neg hc]
        cases h : splitOnC sep cs with
        | nil => simp
        | cons p ps => simp

theorem joinSep_cons_prepend (c a : Char) (p : List Char) (ps : List (List Char)) :
    joinSep [c] ((a :: p) :: ps) = a :: joinSep [c] (p :: ps) := by
  cases ps with
  | nil => rfl
  | cons q qs =>
      rw [show joinSep [c] ((a :: p) :: q :: qs) =
          (a :: p) ++ [c] ++ joinSep [c] (q :: qs) from rfl]
      rw [show joinSep [c] (p :: q :: qs) = p ++ [c] ++ joinSep [c] (q :: qs) from rfl]
      simp

theorem joinSep_splitOnC (c : Char) : ∀ l : List Char,
    joinSep [c] (splitOnC c l) = l := by
  intro l
  induction l with
  | nil => rfl
  | cons a cs ih =>
      by_cases ha : a = c
      · subst ha
        have hsp : splitOnC a (a :: cs) = [] :: splitOnC a cs := by
          simp [splitOnC]
        rw [hsp]
        cases h : splitOnC a cs with
        | nil => exact absurd h (splitOnC_ne_nil a cs)
        | cons p ps =>
            rw [h] at ih
            rw [show joinSep [a] ([] :: p :: ps) =
                [] ++ [a] ++ joinSep [a] (p :: ps) from rfl]
            rw [ih]
            simp
      · simp only [splitOnC, if_neg ha]
        cases h : splitOnC c cs with
        | nil => exact absurd h (splitOnC_ne_nil c cs)
        | cons p ps =>
            rw [h] at ih
            show joinSep [c] ((a :: p) :: ps) = a :: cs
            rw [joinSep_cons_prepend, ih]

theorem splitOnC_pieces (sep : Char) :
    ∀ l p : List Char, p ∈ splitOnC sep l → sep ∉ p := by
  intro l
  induction l with
  | nil =>
      intro p hp
      simp [splitOnC] at hp
      subst hp
      simp
  | cons c cs ih =>
      intro p hp
      by_cases hc : c = sep
      · simp only [splitOnC, if_pos hc] at hp
        rcases List.mem_cons.mp hp with h1 | h1
        · subst h1; simp
        · exact ih p h1
      · simp only [splitOnC, if_neg hc] at hp
        cases h : splitOnC sep cs with
        | nil => exact absurd h (splitOnC_ne_nil sep cs)
        | cons q qs =>
            rw [h] at hp
            rcases List.mem_cons.mp hp with h1 | h1
            · subst h1
              intro hmem
              rcases List.mem_cons.mp hmem with h2 | h2
              · exact hc h2.symm
              · exact ih q (by rw [h]; exact List.mem_cons_self q qs) h2
            · exact ih p (by rw [h]; exact List.mem_cons_of_mem q h1)

theorem notMem_joinSep (a : Char) (s : List Char) :
    ∀ xs : List (List Char), a ∉ s → (∀ p ∈ xs, a ∉ p) → a ∉ joinSep s xs := by
  intro xs
  induction xs with
  | nil => intro _ _; simp [joinSep]
  | cons x xs ih =>
      intro hs hp
      cases xs with
      | nil => simpa [joinSep] using hp x (by simp)
      | cons y ys =>
          rw [show joinSep s (x :: y :: ys) = x ++ s ++ joinSep s (y :: ys) from rfl]
          intro hmem
          simp only [List.append_assoc, List.mem_append] at hmem
          rcases hmem with h1 | h2 | h3
          · exact hp x (by simp) h1
          · exact hs h2
          · exact ih hs (fun p hp2 => hp p (List.mem_cons_of_mem x hp2)) h3

theorem splitOnC_of_not_mem (sep : Char) :
    ∀ l : List Char, sep ∉ l → splitOnC sep l = [l] := by
  intro l
  induction l with
  | nil => intro _; rfl
  | cons c cs ih =>
      intro h
      simp only [List.mem_cons, not_or] at h
      obtain ⟨h1, h2⟩ := h
      have hcs : ¬(c = sep) := fun hcon => h1 hcon.symm
      simp only [splitOnC]
      rw [ih h2, if_neg hcs]

/-- C10: normalizePath is idempotent for the platform separators ("/" and
"\\"), and every output starts with ".." or with "./". -/
theorem c10_normalizePath_idem (sep : Char) (hsep : sep = '/' ∨ sep = '\\')
    (s : List Char) :
    normalizePath sep (normalizePath sep s) = normalizePath sep s ∧
    (['.', '.'].isPrefixOf (normalizePath sep s) = true ∨
     ['.', '/'].isPrefixOf (normalizePath sep s) = true) := by
  have hpref : ∀ t : List Char,
      (['.', '.'].isPrefixOf (normalizePath sep t) = true ∨
       ['.', '/'].isPrefixOf (normalizePath sep t) = true) := by
    intro t
    unfold normalizePath
    by_cases hc : (!(['.', '.'].isPrefixOf (joinSep ['/'] (splitOnC sep t))) &&
        !(['.', '/'].isPrefixOf (joinSep ['/'] (splitOnC sep t)))) = true
    · rw [if_pos hc]
      right
      simp [List.isPrefixOf]
    · rw [if_neg hc]
      by_cases ha : ['.', '.'].isPrefixOf (joinSep ['/'] (splitOnC sep t)) = true
      · exact Or.inl ha
      · by_cases hb : ['.', '/'].isPrefixOf (joinSep ['/'] (splitOnC sep t)) = true
        · exact Or.inr hb
        · have ha' := Bool.eq_false_iff.mpr ha
          have hb' := Bool.eq_false_iff.mpr hb
          exact absurd (by simp [ha', hb']) hc
  refine ⟨?_, hpref s⟩
  have hnotsep : sep = '\\' → '\\' ∉ normalizePath '\\' s := by
    intro hs
    have hu : '\\' ∉ joinSep ['/'] (splitOnC '\\' s) := by
      apply notMem_joinSep
      · simp
      · intro p hp
        exact splitOnC_pieces '\\' s p hp
    unfold normalizePath
    by_cases hc : (!(['.', '.'].isPrefixOf (joinSep ['/'] (splitOnC '\\' s))) &&
        !(['.', '/'].isPrefixOf (joinSep ['/'] (splitOnC '\\' s)))) = true
    · rw [if_pos hc]
      intro hmem
      rcases List.mem_cons.mp hmem with h1 | h1
      · exact absurd h1 (by decide)
      · rcases List.mem_cons.mp h1 with h2 | h2
        · exact absurd h2 (by decide)
        · exact hu h2
    · rw [if_neg hc]
      exact hu
  have hsplit2 : joinSep ['/'] (splitOnC sep (normalizePath sep s)) =
      normalizePath sep s := by
    rcases hsep with h | h
    · subst h
      exact joinSep_splitOnC '/' (normalizePath '/' s)
    · subst h
      rw [splitOnC_of_not_mem '\\' _ (hnotsep rfl)]
      rfl
  rw [show normalizePath sep (normalizePath sep s) =
      (if !(['.', '.'].isPrefixOf (joinSep ['/'] (splitOnC sep (normalizePath sep s)))) &&
          !(['.', '/'].isPrefixOf (joinSep ['/'] (splitOnC sep (normalizePath sep s))))
       then '.' :: '/' :: joinSep ['/'] (splitOnC sep (normalizePath sep s))
       else joinSep ['/'] (splitOnC sep (normalizePath sep s))) from rfl]
  rw [hsplit2]
  rcases hpref s with hp | hp <;> simp [hp]

/-- Witness for C10: the POSIX separator on the input "a/b". -/
theorem c10_witness :
    normalizePath '/' (normalizePath '/' ['a', '/', 'b']) =
      normalizePath '/' ['a', '/', 'b'] ∧
    (['.', '.'].isPrefixOf (normalizePath '/' ['a', '/', 'b']) = true ∨
     ['.', '/'].isPrefixOf (normalizePath '/' ['a', '/', 'b']) = true) :=
  c10_normalizePath_idem '/' (Or.inl rfl) ['a', '/', 'b']

/-- Anchor-selection mode of the JSX-host matcher of
AddRelayEnvironmentProviderTask: configureNext looks for the first JSX
element that is the operand of a return statement; configureViteOrCra for
the first JSX element passed to a ReactDOM render call. -/
inductive WrapMode where
  | firstReturn : WrapMode
  | renderCall : WrapMode

/-- Source: `isCallExpression(parent) and isMemberExpression(parent.callee) and
isIdentifier(parent.callee.property) and parent.callee.property.name ===
"render"`, as a test on the callee of the call whose arguments are being
visited; only active in render-call mode. -/
def isRenderAnchorCall (m : WrapMode) (callee : Expr) : Bool :=
  match m, callee with
  | .renderCall, .member _ (.ident p) => p = "render"
  | _, _ => false

/-- The effect of wrapJsxInProvider on the anchor node: the wrapped element
when the wrap happens, the unchanged anchor when it skips (already
wrapped). -/
def applyWrap (envName providerName : String) (j : Jsx) : Jsx :=
  match wrapJsxInProvider envName providerName j with
  | some w => w
  | none => j

mutual
/-- Anchors of the JSX-host matcher, in the depth-first pre-order in which
Babel's traverse visits them: statement list. -/
def raStmts (m : WrapMode) : List Stmt → List Jsx
  | [] => []
  | s :: rest => raStmt m s ++ raStmts m rest

/-- Anchors within one statement, in visit order: a JSX element that is the
direct operand of a return statement is an anchor in first-return mode. -/
def raStmt (m : WrapMode) : Stmt → List Jsx
  | .importDecl _ _ => []
  | .exportDefault e => raExpr m e
  | .assign _ l r => raExpr m l ++ raExpr m r
  | .varDecl _ i => raExpr m i
  | .funcDecl _ body => raStmts m body
  | .retVoid => []
  | .ret (.jsx j) =>
      match m with
      | .firstReturn => j :: raJsx m j
      | .renderCall => raJsx m j
  | .ret e => raExpr m e
  | .exprStmt e => raExpr m e

/-- Anchors within one expression, in visit order. -/
def raExpr (m : WrapMode) : Expr → List Jsx
  | .ident _ => []
  | .strLit _ => []
  | .call c args => raExpr m c ++ raArgs m (isRenderAnchorCall m c) args
  | .member o pr => raExpr m o ++ raExpr m pr
  | .obj props => raProps m props
  | .arr es => raExprs m es
  | .jsx j => raJsx m j
  | .arrowFun body => raStmts m body

/-- Anchors of an expression list. -/
def raExprs (m : WrapMode) : List Expr → List Jsx
  | [] => []
  | e :: es => raExpr m e ++ raExprs m es

/-- Anchors of a call's argument list: a JSX element directly passed to a
render call is itself an anchor. -/
def raArgs (m : WrapMode) (isR : Bool) : List Expr → List Jsx
  | [] => []
  | .jsx j :: es =>
      (if isR then j :: raJsx m j else raJsx m j) ++ raArgs m isR es
  | e :: es => raExpr m e ++ raArgs m isR es

/-- Anchors of an object literal's members. -/
def raProps (m : WrapMode) : List ObjProp → List Jsx
  | [] => []
  | .prop _ v :: rest => raExpr m v ++ raProps m rest
  | .spread e :: rest => raExpr m e ++ raProps m rest

/-- Anchors inside a JSX element's own subtree (attributes, then children). -/
def raJsx (m : WrapMode) : Jsx → List Jsx
  | .elem _ attrs children => raAttrs m attrs ++ raChildren m children

/-- Anchors of a JSX attribute list. -/
def raAttrs (m : WrapMode) : List JsxAttr → List Jsx
  | [] => []
  | .attr _ v :: rest => raAttrVal m v ++ raAttrs m rest

/-- Anchors of a JSX attribute value. -/
def raAttrVal (m : WrapMode) : JsxAttrVal → List Jsx
  | .container e => raExpr m e
  | .lit _ => []

/-- Anchors of a JSX child list. -/
def raChildren (m : WrapMode) : List JsxChild → List Jsx
  | [] => []
  | c :: rest => raChild m c ++ raChildren m rest

/-- Anchors of one JSX child. -/
def raChild (m : WrapMode) : JsxChild → List Jsx
  | .elem j => raJsx m j
  | .container e => raExpr m e
  | .text _ => []
end

/-- Anchors of one call argument (the head case of raArgs). -/
def raArg (m : WrapMode) (isR : Bool) (e : Expr) : List Jsx :=
  match isR, e with
  | true, .jsx j => j :: raJsx m j
  | _, _ => raExpr m e

theorem raArgs_cons (m : WrapMode) (isR : Bool) (e : Expr) (es : List Expr) :
    raArgs m isR (e :: es) = raArg m isR e ++ raArgs m isR es := by
  cases e <;> cases isR <;> simp [raArgs, raArg, raExpr]

mutual
/-- AddRelayEnvironmentProviderTask traversal over a statement list: the
`providerWrapped` flag is threaded left to right; once it is set the
visitor is a no-op on the remainder. -/
def wStmts (m : WrapMode) (en pn : String) (b : Bool) (ss : List Stmt) :
    Bool × List Stmt :=
  if b then (b, ss)
  else
    match ss with
    | [] => (false, [])
    | s :: rest =>
        let p1 := wStmt m en pn false s
        let p2 := wStmts m en pn p1.1 rest
        (p2.1, p1.2 :: p2.2)

/-- Traversal of one statement; in first-return mode a JSX element that is
the direct operand of a return statement is the anchor: it is wrapped (or
skipped, when already wrapped), the flag is set, and path.skip() prevents
descent into the new node. -/
def wStmt (m : WrapMode) (en pn : String) (b : Bool) (s : Stmt) : Bool × Stmt :=
  if b then (b, s)
  else
    match s with
    | .importDecl sp md => (false, .importDecl sp md)
    | .exportDefault e =>
        let p := wExpr m en pn false e
        (p.1, .exportDefault p.2)
    | .assign op l r =>
        let p1 := wExpr m en pn false l
        let p2 := wExpr m en pn p1.1 r
        (p2.1, .assign op p1.2 p2.2)
    | .varDecl n i =>
        let p := wExpr m en pn false i
        (p.1, .varDecl n p.2)
    | .funcDecl n body =>
        let p := wStmts m en pn false body
        (p.1, .funcDecl n p.2)
    | .retVoid => (false, .retVoid)
    | .ret (.jsx j) =>
        match m with
        | .firstReturn => (true, .ret (.jsx (applyWrap en pn j)))
        | .renderCall =>
            let p := wJsx m en pn false j
            (p.1, .ret (.jsx p.2))
    | .ret e =>
        let p := wExpr m en pn false e
        (p.1, .ret p.2)
    | .exprStmt e =>
        let p := wExpr m en pn false e
        (p.1, .exprStmt p.2)

/-- Traversal of one expression (pre-order: callee before arguments, member
object before property, attributes before children). -/
def wExpr (m : WrapMode) (en pn : String) (b : Bool) (e : Expr) : Bool × Expr :=
  if b then (b, e)
  else
    match e with
    | .ident n => (false, .ident n)
    | .strLit v => (false, .strLit v)
    | .call c args =>
        let p1 := wExpr m en pn false c
        let p2 := wArgs m en pn (isRenderAnchorCall m c) p1.1 args
        (p2.1, .call p1.2 p2.2)
    | .member o pr =>
        let p1 := wExpr m en pn false o
        let p2 := wExpr m en pn p1.1 pr
        (p2.1, .member p1.2 p2.2)
    | .obj props =>
        let p := wProps m en pn false props
        (p.1, .obj p.2)
    | .arr es =>
        let p := wExprs m en pn false es
        (p.1, .arr p.2)
    | .jsx j =>
        let p := wJsx m en pn false j
        (p.1, .jsx p.2)
    | .arrowFun body =>
        let p := wStmts m en pn false body
        (p.1, .arrowFun p.2)

/-- Traversal of an expression list. -/
def wExprs (m : WrapMode) (en pn : String) (b : Bool) (es : List Expr) :
    Bool × List Expr :=
  if b then (b, es)
  else
    match es with
    | [] => (false, [])
    | e :: rest =>
        let p1 := wExpr m en pn false e
        let p2 := wExprs m en pn p1.1 rest
        (p2.1, p1.2 :: p2.2)

/-- Traversal of a call's argument list: in render-call mode (isR), a JSX
element that is a direct argument is the anchor — it is wrapped (or
skipped), the flag is set, and no descent happens into the new node. -/
def wArgs (m : WrapMode) (en pn : String) (isR : Bool) (b : Bool)
    (args : List Expr) : Bool × List Expr :=
  if b then (b, args)
  else
    match args with
    | [] => (false, [])
    | .jsx j :: es =>
        let p1 :=
          if isR then (true, Expr.jsx (applyWrap en pn j))
          else wExpr m en pn false (.jsx j)
        let p2 := wArgs m en pn isR p1.1 es
        (p2.1, p1.2 :: p2.2)
    | e :: es =>
        let p1 := wExpr m en pn false e
        let p2 := wArgs m en pn isR p1.1 es
        (p2.1, p1.2 :: p2.2)

/-- Traversal of the members of an object literal. -/
def wProps (m : WrapMode) (en pn : String) (b : Bool) (props : List ObjProp) :
    Bool × List ObjProp :=
  if b then (b, props)
  else
    match props with
    | [] => (false, [])
    | .prop k v :: rest =>
        let p1 := wExpr m en pn false v
        let p2 := wProps m en pn p1.1 rest
        (p2.1, .prop k p1.2 :: p2.2)
    | .spread e :: rest =>
        let p1 := wExpr m en pn false e
        let p2 := wProps m en pn p1.1 rest
        (p2.1, .spread p1.2 :: p2.2)

/-- Traversal of a JSX element's subtree (not the element itself):
attributes, then children. -/
def wJsx (m : WrapMode) (en pn : String) (b : Bool) (j : Jsx) : Bool × Jsx :=
  if b then (b, j)
  else
    match j with
    | .elem nm attrs children =>
        let p1 := wAttrs m en pn false attrs
        let p2 := wChildren m en pn p1.1 children
        (p2.1, .elem nm p1.2 p2.2)

/-- Traversal of a JSX attribute list. -/
def wAttrs (m : WrapMode) (en pn : String) (b : Bool) (attrs : List JsxAttr) :
    Bool × List JsxAttr :=
  if b then (b, attrs)
  else
    match attrs with
    | [] => (false, [])
    | .attr n v :: rest =>
        let p1 := wAttrVal m en pn false v
        let p2 := wAttrs m en pn p1.1 rest
        (p2.1, .attr n p1.2 :: p2.2)

/-- Traversal of a JSX attribute value. -/
def wAttrVal (m : WrapMode) (en pn : String) (b : Bool) (v : JsxAttrVal) :
    Bool × JsxAttrVal :=
  if b then (b, v)
  else
    match v with
    | .container e =>
        let p := wExpr m en pn false e
        (p.1, .container p.2)
    | .lit t => (false, .lit t)

/-- Traversal of a JSX child list. -/
def wChildren (m : WrapMode) (en pn : String) (b : Bool)
    (children : List JsxChild) : Bool × List JsxChild :=
  if b then (b, children)
  else
    match children with
    | [] => (false, [])
    | c :: rest =>
        let p1 := wChild m en pn false c
        let p2 := wChildren m en pn p1.1 rest
        (p2.1, p1.2 :: p2.2)

/-- Traversal of one JSX child. -/
def wChild (m : WrapMode) (en pn : String) (b : Bool) (c : JsxChild) :
    Bool × JsxChild :=
  if b then (b, c)
  else
    match c with
    | .elem j =>
        let p := wJsx m en pn false j
        (p.1, JsxChild.elem p.2)
    | .container e =>
        let p := wExpr m en pn false e
        (p.1, .container p.2)
    | .text t => (false, .text t)
end

/-- Traversal of one call argument (the head case of wArgs). -/
def wArg (m : WrapMode) (en pn : String) (isR : Bool) (b : Bool) (e : Expr) :
    Bool × Expr :=
  if b then (b, e)
  else
    match isR, e with
    | true, .jsx j => (true, Expr.jsx (applyWrap en pn j))
    | _, _ => wExpr m en pn false e

theorem wStmts_true (m : WrapMode) (en pn : String) (ss : List Stmt) :
    wStmts m en pn true ss = (true, ss) := by unfold wStmts; simp

theorem wStmt_true (m : WrapMode) (en pn : String) (s : Stmt) :
    wStmt m en pn true s = (true, s) := by unfold wStmt; simp

theorem wExpr_true (m : WrapMode) (en pn : String) (e : Expr) :
    wExpr m en pn true e = (true, e) := by unfold wExpr; simp

theorem wExprs_true (m : WrapMode) (en pn : String) (es : List Expr) :
    wExprs m en pn true es = (true, es) := by unfold wExprs; simp

theorem wArgs_true (m : WrapMode) (en pn : String) (isR : Bool) (es : List Expr) :
    wArgs m en pn isR true es = (true, es) := by unfold wArgs; simp

theorem wProps_true (m : WrapMode) (en pn : String) (props : List ObjProp) :
    wProps m en pn true props = (true, props) := by unfold wProps; simp

theorem wJsx_true (m : WrapMode) (en pn : String) (j : Jsx) :
    wJsx m en pn true j = (true, j) := by unfold wJsx; simp

theorem wAttrs_true (m : WrapMode) (en pn : String) (attrs : List JsxAttr) :
    wAttrs m en pn true attrs = (true, attrs) := by unfold wAttrs; simp

theorem wAttrVal_true (m : WrapMode) (en pn : String) (v : JsxAttrVal) :
    wAttrVal m en pn true v = (true, v) := by unfold wAttrVal; simp

theorem wChildren_true (m : WrapMode) (en pn : String) (cs : List JsxChild) :
    wChildren m en pn true cs = (true, cs) := by unfold wChildren; simp

theorem wChild_true (m : WrapMode) (en pn : String) (c : JsxChild) :
    wChild m en pn true c = (true, c) := by unfold wChild; simp

theorem wArgs_cons (m : WrapMode) (en pn : String) (isR : Bool) (e : Expr)
    (es : List Expr) :
    wArgs m en pn isR false (e :: es) =
      ((wArgs m en pn isR (wArg m en pn isR false e).1 es).1,
       (wArg m en pn isR false e).2 ::
         (wArgs m en pn isR (wArg m en pn isR false e).1 es).2) := by
  cases e <;> cases isR <;> simp [wArgs, wArg]

/-- The specification of a flag-threaded traversal f with anchor collector
g at a value x: when x contains no anchor, the traversal changes nothing
and the flag stays false; when its anchors are j :: rest, the flag comes
out true and the output's anchors are the wrapped (or skipped) j followed
by rest unchanged — only the first anchor is ever mutated. -/
def WrapSpec {α : Type} (en pn : String) (f : Bool → α → Bool × α)
    (g : α → List Jsx) (x : α) : Prop :=
  (g x = [] → f false x = (false, x)) ∧
  (∀ (j : Jsx) (rest : List Jsx), g x = j :: rest →
    (f false x).1 = true ∧ g ((f false x).2) = applyWrap en pn j :: rest)

theorem wrapSpec_leaf {α : Type} (en pn : String) (f : Bool → α → Bool × α)
    (g : α → List Jsx) (x : α) (hF : f false x = (false, x)) (hG : g x = []) :
    WrapSpec en pn f g x := by
  constructor
  · intro _; exact hF
  · intro j rest hg
    rw [hG] at hg
    simp at hg

theorem wrapSpec_unary {α γ : Type} (en pn : String)
    (f1 : Bool → α → Bool × α) (g1 : α → List Jsx) (x : α)
    (F : Bool → γ → Bool × γ) (G : γ → List Jsx) (mk : α → γ)
    (hF : F false (mk x) = ((f1 false x).1, mk ((f1 false x).2)))
    (hGx : G (mk x) = g1 x)
    (hGo : G (mk ((f1 false x).2)) = g1 ((f1 false x).2))
    (h1 : WrapSpec en pn f1 g1 x) :
    WrapSpec en pn F G (mk x) := by
  constructor
  · intro hg
    rw [hGx] at hg
    rw [hF, h1.1 hg]
  · intro j rest hg
    rw [hGx] at hg
    obtain ⟨hb, hgo⟩ := h1.2 j rest hg
    constructor
    · rw [hF]; exact hb
    · rw [hF]
      simp only
      rw [hGo, hgo]

theorem wrapSpec_node {α β γ : Type} (en pn : String)
    (f1 : Bool → α → Bool × α) (g1 : α → List Jsx) (x : α)
    (f2 : Bool → β → Bool × β) (g2 : β → List Jsx) (y : β)
    (F : Bool → γ → Bool × γ) (G : γ → List Jsx) (mk : α → β → γ)
    (hF : F false (mk x y) =
      ((f2 (f1 false x).1 y).1, mk ((f1 false x).2) ((f2 (f1 false x).1 y).2)))
    (hGx : G (mk x y) = g1 x ++ g2 y)
    (hGo : G (mk ((f1 false x).2) ((f2 (f1 false x).1 y).2)) =
      g1 ((f1 false x).2) ++ g2 ((f2 (f1 false x).1 y).2))
    (h2t : f2 true y = (true, y))
    (h1 : WrapSpec en pn f1 g1 x) (h2 : WrapSpec en pn f2 g2 y) :
    WrapSpec en pn F G (mk x y) := by
  constructor
  · intro hg
    rw [hGx] at hg
    obtain ⟨hg1, hg2⟩ := List.append_eq_nil.mp hg
    have e1 := h1.1 hg1
    have e2 := h2.1 hg2
    rw [hF, e1]
    simp only
    rw [e2]
  · intro j rest hg
    rw [hGx] at hg
    cases hca : g1 x with
    | nil =>
        rw [hca, List.nil_append] at hg
        have e1 := h1.1 hca
        obtain ⟨hb2, hgo2⟩ := h2.2 j rest hg
        constructor
        · rw [hF, e1]
          simpa using hb2
        · rw [hF, hGo, e1]
          simp [hca, hgo2]
    | cons j1 rest1 =>
        rw [hca] at hg
        simp only [List.cons_append] at hg
        obtain ⟨hj, hrest⟩ := List.cons.inj hg
        obtain ⟨hb1, hgo1⟩ := h1.2 j1 rest1 hca
        constructor
        · rw [hF, hb1, h2t]
        · rw [hF, hGo, hgo1, hb1, h2t]
          simp [hj, hrest]

theorem wrapSpec_anchor {γ : Type} (en pn : String) (j : Jsx)
    (g : Jsx → List Jsx) (F : Bool → γ → Bool × γ) (G : γ → List Jsx)
    (mkJ : Jsx → γ)
    (hF : F false (mkJ j) = (true, mkJ (applyWrap en pn j)))
    (hG : ∀ j2 : Jsx, G (mkJ j2) = j2 :: g j2)
    (hpres : g (applyWrap en pn j) = g j) :
    WrapSpec en pn F G (mkJ j) := by
  constructor
  · intro hg
    rw [hG] at hg
    simp at hg
  · intro j2 rest hg
    rw [hG] at hg
    obtain ⟨hj, hrest⟩ := List.cons.inj hg
    constructor
    · rw [hF]
    · rw [hF]
      simp only
      rw [hG, hpres, hrest, hj]

theorem wrapSpec_of_eq {α : Type} (en pn : String)
    (f f' : Bool → α → Bool × α) (g g' : α → List Jsx) (x : α)
    (hfx : f' false x = f false x) (hgx : g' x = g x)
    (hgo : g' ((f false x).2) = g ((f false x).2))
    (h : WrapSpec en pn f g x) : WrapSpec en pn f' g' x := by
  constructor
  · intro hg
    rw [hfx]
    exact h.1 (by rw [← hgx]; exact hg)
  · intro j rest hg
    rw [hgx] at hg
    obtain ⟨hb, hout⟩ := h.2 j rest hg
    refine ⟨by rw [hfx]; exact hb, ?_⟩
    rw [hfx, hgo]
    exact hout

/-- Wrapping (or skipping) an anchor does not change the anchors nested
inside its subtree: the wrapped element's attribute holds only the
environment identifier and its sole child is the original element. -/
theorem raJsx_applyWrap (m : WrapMode) (en pn : String) (j : Jsx) :
    raJsx m (applyWrap en pn j) = raJsx m j := by
  match j with
  | .elem nm attrs children =>
      by_cases hn : nm = JsxName.ident pn
      · simp [applyWrap, wrapJsxInProvider, hn]
      · simp [applyWrap, wrapJsxInProvider, hn, raJsx, raAttrs, raAttrVal,
          raExpr, raChildren, raChild]

theorem wExpr_ident (m : WrapMode) (en pn : String) (b : Bool) (n : String) :
    wExpr m en pn b (.ident n) = (b, .ident n) := by
  cases b <;> simp [wExpr]

theorem wExpr_not_jsx (m : WrapMode) (en pn : String) (e : Expr)
    (he : ∀ j : Jsx, e ≠ Expr.jsx j) :
    ∀ j : Jsx, (wExpr m en pn false e).2 ≠ Expr.jsx j := by
  intro j
  match e with
  | .ident n => simp [wExpr]
  | .strLit v => simp [wExpr]
  | .call c args => simp [wExpr]
  | .member o pr => simp [wExpr]
  | .obj props => simp [wExpr]
  | .arr es => simp [wExpr]
  | .jsx j0 => exact absurd rfl (he j0)
  | .arrowFun body => simp [wExpr]

theorem wExpr_not_ident (m : WrapMode) (en pn : String) (b : Bool) (e : Expr)
    (he : ∀ n : String, e ≠ Expr.ident n) :
    ∀ n : String, (wExpr m en pn b e).2 ≠ Expr.ident n := by
  intro n
  cases b with
  | true =>
      rw [wExpr_true]
      exact he n
  | false =>
      match e with
      | .ident n0 => exact absurd rfl (he n0)
      | .strLit v => simp [wExpr]
      | .call c args => simp [wExpr]
      | .member o pr => simp [wExpr]
      | .obj props => simp [wExpr]
      | .arr es => simp [wExpr]
      | .jsx j0 => simp [wExpr]
      | .arrowFun body => simp [wExpr]

theorem isRenderAnchorCall_member_not_ident (m : WrapMode) (x pr' : Expr)
    (h : ∀ n : String, pr' ≠ Expr.ident n) :
    isRenderAnchorCall m (.member x pr') = false := by
  cases m with
  | firstReturn => rfl
  | renderCall =>
      match pr' with
      | .ident n => exact absurd rfl (h n)
      | .strLit v => rfl
      | .call a b => rfl
      | .member a b => rfl
      | .obj ps => rfl
      | .arr es => rfl
      | .jsx j => rfl
      | .arrowFun b => rfl

theorem isRenderAnchorCall_not_member (m : WrapMode) (c : Expr)
    (h : ∀ x pr : Expr, c ≠ Expr.member x pr) :
    isRenderAnchorCall m c = false := by
  cases m with
  | firstReturn => rfl
  | renderCall =>
      match c with
      | .member x pr => exact absurd rfl (h x pr)
      | .ident n => rfl
      | .strLit v => rfl
      | .call a b => rfl
      | .obj ps => rfl
      | .arr es => rfl
      | .jsx j => rfl
      | .arrowFun b => rfl

theorem wExpr_not_member (m : WrapMode) (en pn : String) (e : Expr)
    (he : ∀ x pr : Expr, e ≠ Expr.member x pr) :
    ∀ x pr : Expr, (wExpr m en pn false e).2 ≠ Expr.member x pr := by
  intro x pr
  match e with
  | .ident n => simp [wExpr]
  | .strLit v => simp [wExpr]
  | .call c args => simp [wExpr]
  | .member o pr0 => exact absurd rfl (he o pr0)
  | .obj props => simp [wExpr]
  | .arr es => simp [wExpr]
  | .jsx j0 => simp [wExpr]
  | .arrowFun body => simp [wExpr]

/-- Wrapping anchors inside a call's callee never changes whether the call
is a render call: the callee's member/property shape is preserved. -/
theorem isRenderAnchorCall_wExpr (m : WrapMode) (en pn : String) (c : Expr) :
    isRenderAnchorCall m ((wExpr m en pn false c).2) = isRenderAnchorCall m c := by
  match c with
  | .member o pr =>
      have hout : (wExpr m en pn false (.member o pr)).2 =
          Expr.member ((wExpr m en pn false o).2)
            ((wExpr m en pn (wExpr m en pn false o).1 pr).2) := by
        simp [wExpr]
      rw [hout]
      match pr with
      | .ident s =>
          rw [wExpr_ident]
          cases m with
          | firstReturn => rfl
          | renderCall => simp [isRenderAnchorCall]
      | .strLit v =>
          rw [isRenderAnchorCall_member_not_ident m _ _
              (wExpr_not_ident m en pn _ _ (by intro n h; cases h)),
            isRenderAnchorCall_member_not_ident m _ _ (by intro n h; cases h)]
      | .call a b =>
          rw [isRenderAnchorCall_member_not_ident m _ _
              (wExpr_not_ident m en pn _ _ (by intro n h; cases h)),
            isRenderAnchorCall_member_not_ident m _ _ (by intro n h; cases h)]
      | .member a b =>
          rw [isRenderAnchorCall_member_not_ident m _ _
              (wExpr_not_ident m en pn _ _ (by intro n h; cases h)),
            isRenderAnchorCall_member_not_ident m _ _ (by intro n h; cases h)]
      | .obj ps =>
          rw [isRenderAnchorCall_member_not_ident m _ _
              (wExpr_not_ident m en pn _ _ (by intro n h; cases h)),
            isRenderAnchorCall_member_not_ident m _ _ (by intro n h; cases h)]
      | .arr es =>
          rw [isRenderAnchorCall_member_not_ident m _ _
              (wExpr_not_ident m en pn _ _ (by intro n h; cases h)),
            isRenderAnchorCall_member_not_ident m _ _ (by intro n h; cases h)]
      | .jsx j =>
          rw [isRenderAnchorCall_member_not_ident m _ _
              (wExpr_not_ident m en pn _ _ (by intro n h; cases h)),
            isRenderAnchorCall_member_not_ident m _ _ (by intro n h; cases h)]
      | .arrowFun b =>
          rw [isRenderAnchorCall_member_not_ident m _ _
              (wExpr_not_ident m en pn _ _ (by intro n h; cases h)),
            isRenderAnchorCall_member_not_ident m _ _ (by intro n h; cases h)]
  | .ident n =>
      rw [isRenderAnchorCall_not_member m _
          (wExpr_not_member m en pn _ (by intro x pr h; cases h)),
        isRenderAnchorCall_not_member m _ (by intro x pr h; cases h)]
  | .strLit v =>
      rw [isRenderAnchorCall_not_member m _
          (wExpr_not_member m en pn _ (by intro x pr h; cases h)),
        isRenderAnchorCall_not_member m _ (by intro x pr h; cases h)]
  | .call a b =>
      rw [isRenderAnchorCall_not_member m _
          (wExpr_not_member m en pn _ (by intro x pr h; cases h)),
        isRenderAnchorCall_not_member m _ (by intro x pr h; cases h)]
  | .obj ps =>
      rw [isRenderAnchorCall_not_member m _
          (wExpr_not_member m en pn _ (by intro x pr h; cases h)),
        isRenderAnchorCall_not_member m _ (by intro x pr h; cases h)]
  | .arr es =>
      rw [isRenderAnchorCall_not_member m _
          (wExpr_not_member m en pn _ (by intro x pr h; cases h)),
        isRenderAnchorCall_not_member m _ (by intro x pr h; cases h)]
  | .jsx j =>
      rw [isRenderAnchorCall_not_member m _
          (wExpr_not_member m en pn _ (by intro x pr h; cases h)),
        isRenderAnchorCall_not_member m _ (by intro x pr h; cases h)]
  | .arrowFun b =>
      rw [isRenderAnchorCall_not_member m _
          (wExpr_not_member m en pn _ (by intro x pr h; cases h)),
        isRenderAnchorCall_not_member m _ (by intro x pr h; cases h)]

theorem raArg_false (m : WrapMode) (e : Expr) : raArg m false e = raExpr m e := by
  match e with
  | .ident n => simp [raArg]
  | .strLit v => simp [raArg]
  | .call a b => simp [raArg]
  | .member a b => simp [raArg]
  | .obj ps => simp [raArg]
  | .arr es => simp [raArg]
  | .jsx j => simp [raArg, raExpr]
  | .arrowFun b => simp [raArg]

theorem raArg_eq_raExpr (m : WrapMode) (isR : Bool) (e : Expr)
    (he : ∀ j : Jsx, e ≠ Expr.jsx j) : raArg m isR e = raExpr m e := by
  cases isR with
  | false => exact raArg_false m e
  | true =>
      match e with
      | .jsx j => exact absurd rfl (he j)
      | .ident n => simp [raArg]
      | .strLit v => simp [raArg]
      | .call a b => simp [raArg]
      | .member a b => simp [raArg]
      | .obj ps => simp [raArg]
      | .arr es => simp [raArg]
      | .arrowFun b => simp [raArg]

theorem wArg_false_isR (m : WrapMode) (en pn : String) (e : Expr) :
    wArg m en pn false false e = wExpr m en pn false e := by
  match e with
  | .ident n => simp [wArg]
  | .strLit v => simp [wArg]
  | .call a b => simp [wArg]
  | .member a b => simp [wArg]
  | .obj ps => simp [wArg]
  | .arr es => simp [wArg]
  | .jsx j => simp [wArg]
  | .arrowFun b => simp [wArg]

theorem wArg_true_not_jsx (m : WrapMode) (en pn : String) (e : Expr)
    (he : ∀ j : Jsx, e ≠ Expr.jsx j) :
    wArg m en pn true false e = wExpr m en pn false e := by
  match e with
  | .jsx j => exact absurd rfl (he j)
  | .ident n => simp [wArg]
  | .strLit v => simp [wArg]
  | .call a b => simp [wArg]
  | .member a b => simp [wArg]
  | .obj ps => simp [wArg]
  | .arr es => simp [wArg]
  | .arrowFun b => simp [wArg]

/-- Specification transfer from wExpr to the argument-position traversal
wArg, for non-anchor arguments. -/
theorem wArg_spec_of_wExpr (m : WrapMode) (en pn : String) (isR : Bool)
    (e : Expr) (hspec : WrapSpec en pn (wExpr m en pn) (raExpr m) e)
    (hne : isR = true → ∀ j : Jsx, e ≠ Expr.jsx j) :
    WrapSpec en pn (wArg m en pn isR) (raArg m isR) e := by
  cases isR with
  | false =>
      exact wrapSpec_of_eq en pn (wExpr m en pn) (wArg m en pn false)
        (raExpr m) (raArg m false) e (wArg_false_isR m en pn e)
        (raArg_false m e) (raArg_false m _) hspec
  | true =>
      have he := hne rfl
      exact wrapSpec_of_eq en pn (wExpr m en pn) (wArg m en pn true)
        (raExpr m) (raArg m true) e (wArg_true_not_jsx m en pn e he)
        (raArg_eq_raExpr m true e he)
        (raArg_eq_raExpr m true _ (wExpr_not_jsx m en pn e he)) hspec

theorem raStmt_ret_not_jsx (m : WrapMode) (e : Expr)
    (he : ∀ j : Jsx, e ≠ Expr.jsx j) :
    raStmt m (.ret e) = raExpr m e := by
  match e with
  | .jsx j => exact absurd rfl (he j)
  | .ident n => simp [raStmt]
  | .strLit v => simp [raStmt]
  | .call a b => simp [raStmt]
  | .member a b => simp [raStmt]
  | .obj ps => simp [raStmt]
  | .arr es => simp [raStmt]
  | .arrowFun b => simp [raStmt]

mutual
theorem wStmts_spec (m : WrapMode) (en pn : String) :
    ∀ ss : List Stmt, WrapSpec en pn (wStmts m en pn) (raStmts m) ss
  | [] => wrapSpec_leaf en pn _ _ _ (by simp [wStmts]) (by simp [raStmts])
  | s :: rest =>
      wrapSpec_node en pn (wStmt m en pn) (raStmt m) s
        (wStmts m en pn) (raStmts m) rest
        (wStmts m en pn) (raStmts m) (fun u v => u :: v)
        (by simp [wStmts]) (by simp [raStmts]) (by simp [raStmts])
        (wStmts_true m en pn rest) (wStmt_spec m en pn s)
        (wStmts_spec m en pn rest)

theorem wStmt_spec (m : WrapMode) (en pn : String) :
    ∀ s : Stmt, WrapSpec en pn (wStmt m en pn) (raStmt m) s
  | .importDecl sp md =>
      wrapSpec_leaf en pn _ _ _ (by simp [wStmt]) (by simp [raStmt])
  | .exportDefault e =>
      wrapSpec_unary en pn (wExpr m en pn) (raExpr m) e
        (wStmt m en pn) (raStmt m) (fun u => .exportDefault u)
        (by simp [wStmt]) (by simp [raStmt]) (by simp [raStmt])
        (wExpr_spec m en pn e)
  | .assign op l r =>
      wrapSpec_node en pn (wExpr m en pn) (raExpr m) l
        (wExpr m en pn) (raExpr m) r
        (wStmt m en pn) (raStmt m) (fun u v => .assign op u v)
        (by simp [wStmt]) (by simp [raStmt]) (by simp [raStmt])
        (wExpr_true m en pn r) (wExpr_spec m en pn l) (wExpr_spec m en pn r)
  | .varDecl n i =>
      wrapSpec_unary en pn (wExpr m en pn) (raExpr m) i
        (wStmt m en pn) (raStmt m) (fun u => .varDecl n u)
        (by simp [wStmt]) (by simp [raStmt]) (by simp [raStmt])
        (wExpr_spec m en pn i)
  | .funcDecl n body =>
      wrapSpec_unary en pn (wStmts m en pn) (raStmts m) body
        (wStmt m en pn) (raStmt m) (fun u => .funcDecl n u)
        (by simp [wStmt]) (by simp [raStmt]) (by simp [raStmt])
        (wStmts_spec m en pn body)
  | .retVoid => wrapSpec_leaf en pn _ _ _ (by simp [wStmt]) (by simp [raStmt])
  | .ret (.jsx j) => by
      cases m with
      | firstReturn =>
          exact wrapSpec_anchor en pn j (raJsx .firstReturn)
            (wStmt .firstReturn en pn) (raStmt .firstReturn)
            (fun j2 => .ret (.jsx j2))
            (by simp [wStmt]) (fun j2 => by simp [raStmt])
            (raJsx_applyWrap .firstReturn en pn j)
      | renderCall =>
          exact wrapSpec_unary en pn (wJsx .renderCall en pn)
            (raJsx .renderCall) j
            (wStmt .renderCall en pn) (raStmt .renderCall)
            (fun j2 => .ret (.jsx j2))
            (by simp [wStmt]) (by simp [raStmt]) (by simp [raStmt])
            (wJsx_spec .renderCall en pn j)
  | .ret (.ident n) =>
      wrapSpec_unary en pn (wExpr m en pn) (raExpr m) (.ident n)
        (wStmt m en pn) (raStmt m) (fun u => .ret u)
        (by simp [wStmt]) (by simp [raStmt])
        (raStmt_ret_not_jsx m _ (wExpr_not_jsx m en pn _ (by intro j h; cases h)))
        (wExpr_spec m en pn (.ident n))
  | .ret (.strLit v) =>
      wrapSpec_unary en pn (wExpr m en pn) (raExpr m) (.strLit v)
        (wStmt m en pn) (raStmt m) (fun u => .ret u)
        (by simp [wStmt]) (by simp [raStmt])
        (raStmt_ret_not_jsx m _ (wExpr_not_jsx m en pn _ (by intro j h; cases h)))
        (wExpr_spec m en pn (.strLit v))
  | .ret (.call c args) =>
      wrapSpec_unary en pn (wExpr m en pn) (raExpr m) (.call c args)
        (wStmt m en pn) (raStmt m) (fun u => .ret u)
        (by simp [wStmt]) (by simp [raStmt])
        (raStmt_ret_not_jsx m _ (wExpr_not_jsx m en pn _ (by intro j h; cases h)))
        (wExpr_spec m en pn (.call c args))
  | .ret (.member o pr) =>
      wrapSpec_unary en pn (wExpr m en pn) (raExpr m) (.member o pr)
        (wStmt m en pn) (raStmt m) (fun u => .ret u)
        (by simp [wStmt]) (by simp [raStmt])
        (raStmt_ret_not_jsx m _ (wExpr_not_jsx m en pn _ (by intro j h; cases h)))
        (wExpr_spec m en pn (.member o pr))
  | .ret (.obj props) =>
      wrapSpec_unary en pn (wExpr m en pn) (raExpr m) (.obj props)
        (wStmt m en pn) (raStmt m) (fun u => .ret u)
        (by simp [wStmt]) (by simp [raStmt])
        (raStmt_ret_not_jsx m _ (wExpr_not_jsx m en pn _ (by intro j h; cases h)))
        (wExpr_spec m en pn (.obj props))
  | .ret (.arr es) =>
      wrapSpec_unary en pn (wExpr m en pn) (raExpr m) (.arr es)
        (wStmt m en pn) (raStmt m) (fun u => .ret u)
        (by simp [wStmt]) (by simp [raStmt])
        (raStmt_ret_not_jsx m _ (wExpr_not_jsx m en pn _ (by intro j h; cases h)))
        (wExpr_spec m en pn (.arr es))
  | .ret (.arrowFun body) =>
      wrapSpec_unary en pn (wExpr m en pn) (raExpr m) (.arrowFun body)
        (wStmt m en pn) (raStmt m) (fun u => .ret u)
        (by simp [wStmt]) (by simp [raStmt])
        (raStmt_ret_not_jsx m _ (wExpr_not_jsx m en pn _ (by intro j h; cases h)))
        (wExpr_spec m en pn (.arrowFun body))
  | .exprStmt e =>
      wrapSpec_unary en pn (wExpr m en pn) (raExpr m) e
        (wStmt m en pn) (raStmt m) (fun u => .exprStmt u)
        (by simp [wStmt]) (by simp [raStmt]) (by simp [raStmt])
        (wExpr_spec m en pn e)

theorem wExpr_spec (m : WrapMode) (en pn : String) :
    ∀ e : Expr, WrapSpec en pn (wExpr m en pn) (raExpr m) e
  | .ident n => wrapSpec_leaf en pn _ _ _ (by simp [wExpr]) (by simp [raExpr])
  | .strLit v => wrapSpec_leaf en pn _ _ _ (by simp [wExpr]) (by simp [raExpr])
  | .call c args =>
      wrapSpec_node en pn (wExpr m en pn) (raExpr m) c
        (wArgs m en pn (isRenderAnchorCall m c))
        (raArgs m (isRenderAnchorCall m c)) args
        (wExpr m en pn) (raExpr m) (fun u v => .call u v)
        (by simp [wExpr]) (by simp [raExpr])
        (by simp [raExpr, isRenderAnchorCall_wExpr])
        (wArgs_true m en pn (isRenderAnchorCall m c) args)
        (wExpr_spec m en pn c)
        (wArgs_spec m en pn (isRenderAnchorCall m c) args)
  | .member o pr =>
      wrapSpec_node en pn (wExpr m en pn) (raExpr m) o
        (wExpr m en pn) (raExpr m) pr
        (wExpr m en pn) (raExpr m) (fun u v => .member u v)
        (by simp [wExpr]) (by simp [raExpr]) (by simp [raExpr])
        (wExpr_true m en pn pr) (wExpr_spec m en pn o) (wExpr_spec m en pn pr)
  | .obj props =>
      wrapSpec_unary en pn (wProps m en pn) (raProps m) props
        (wExpr m en pn) (raExpr m) (fun u => .obj u)
        (by simp [wExpr]) (by simp [raExpr]) (by simp [raExpr])
        (wProps_spec m en pn props)
  | .arr es =>
      wrapSpec_unary en pn (wExprs m en pn) (raExprs m) es
        (wExpr m en pn) (raExpr m) (fun u => .arr u)
        (by simp [wExpr]) (by simp [raExpr]) (by simp [raExpr])
        (wExprs_spec m en pn es)
  | .jsx j =>
      wrapSpec_unary en pn (wJsx m en pn) (raJsx m) j
        (wExpr m en pn) (raExpr m) (fun u => .jsx u)
        (by simp [wExpr]) (by simp [raExpr]) (by simp [raExpr])
        (wJsx_spec m en pn j)
  | .arrowFun body =>
      wrapSpec_unary en pn (wStmts m en pn) (raStmts m) body
        (wExpr m en pn) (raExpr m) (fun u => .arrowFun u)
        (by simp [wExpr]) (by simp [raExpr]) (by simp [raExpr])
        (wStmts_spec m en pn body)

theorem wExprs_spec (m : WrapMode) (en pn : String) :
    ∀ es : List Expr, WrapSpec en pn (wExprs m en pn) (raExprs m) es
  | [] => wrapSpec_leaf en pn _ _ _ (by simp [wExprs]) (by simp [raExprs])
  | e :: rest =>
      wrapSpec_node en pn (wExpr m en pn) (raExpr m) e
        (wExprs m en pn) (raExprs m) rest
        (wExprs m en pn) (raExprs m) (fun u v => u :: v)
        (by simp [wExprs]) (by simp [raExprs]) (by simp [raExprs])
        (wExprs_true m en pn rest) (wExpr_spec m en pn e)
        (wExprs_spec m en pn rest)

theorem wArgs_spec (m : WrapMode) (en pn : String) (isR : Bool) :
    ∀ args : List Expr, WrapSpec en pn (wArgs m en pn isR) (raArgs m isR) args
  | [] => wrapSpec_leaf en pn _ _ _ (by simp [wArgs]) (by simp [raArgs])
  | e :: es => by
      have hhead : WrapSpec en pn (wArg m en pn isR) (raArg m isR) e := by
        match isR, e with
        | true, .jsx j =>
            exact wrapSpec_anchor en pn j (raJsx m) (wArg m en pn true)
              (raArg m true) (fun j2 => Expr.jsx j2)
              (by simp [wArg]) (fun j2 => by simp [raArg])
              (raJsx_applyWrap m en pn j)
        | false, e2 =>
            exact wArg_spec_of_wExpr m en pn false e2
              (wExpr_spec m en pn e2) (by intro h; cases h)
        | true, .ident n =>
            exact wArg_spec_of_wExpr m en pn true _
              (wExpr_spec m en pn (.ident n)) (by intro _ j h; cases h)
        | true, .strLit v =>
            exact wArg_spec_of_wExpr m en pn true _
              (wExpr_spec m en pn (.strLit v)) (by intro _ j h; cases h)
        | true, .call a b =>
            exact wArg_spec_of_wExpr m en pn true _
              (wExpr_spec m en pn (.call a b)) (by intro _ j h; cases h)
        | true, .member a b =>
            exact wArg_spec_of_wExpr m en pn true _
              (wExpr_spec m en pn (.member a b)) (by intro _ j h; cases h)
        | true, .obj ps =>
            exact wArg_spec_of_wExpr m en pn true _
              (wExpr_spec m en pn (.obj ps)) (by intro _ j h; cases h)
        | true, .arr es2 =>
            exact wArg_spec_of_wExpr m en pn true _
              (wExpr_spec m en pn (.arr es2)) (by intro _ j h; cases h)
        | true, .arrowFun b =>
            exact wArg_spec_of_wExpr m en pn true _
              (wExpr_spec m en pn (.arrowFun b)) (by intro _ j h; cases h)
      exact wrapSpec_node en pn (wArg m en pn isR) (raArg m isR) e
        (wArgs m en pn isR) (raArgs m isR) es
        (wArgs m en pn isR) (raArgs m isR) (fun u v => u :: v)
        (wArgs_cons m en pn isR e es) (raArgs_cons m isR e es)
        (raArgs_cons m isR _ _)
        (wArgs_true m en pn isR es) hhead (wArgs_spec m en pn isR es)

theorem wProps_spec (m : WrapMode) (en pn : String) :
    ∀ props : List ObjProp, WrapSpec en pn (wProps m en pn) (raProps m) props
  | [] => wrapSpec_leaf en pn _ _ _ (by simp [wProps]) (by simp [raProps])
  | .prop k v :: rest =>
      wrapSpec_node en pn (wExpr m en pn) (raExpr m) v
        (wProps m en pn) (raProps m) rest
        (wProps m en pn) (raProps m) (fun u w => .prop k u :: w)
        (by simp [wProps]) (by simp [raProps]) (by simp [raProps])
        (wProps_true m en pn rest) (wExpr_spec m en pn v)
        (wProps_spec m en pn rest)
  | .spread e :: rest =>
      wrapSpec_node en pn (wExpr m en pn) (raExpr m) e
        (wProps m en pn) (raProps m) rest
        (wProps m en pn) (raProps m) (fun u w => .spread u :: w)
        (by simp [wProps]) (by simp [raProps]) (by simp [raProps])
        (wProps_true m en pn rest) (wExpr_spec m en pn e)
        (wProps_spec m en pn rest)

theorem wJsx_spec (m : WrapMode) (en pn : String) :
    ∀ j : Jsx, WrapSpec en pn (wJsx m en pn) (raJsx m) j
  | .elem nm attrs children =>
      wrapSpec_node en pn (wAttrs m en pn) (raAttrs m) attrs
        (wChildren m en pn) (raChildren m) children
        (wJsx m en pn) (raJsx m) (fun u v => .elem nm u v)
        (by simp [wJsx]) (by simp [raJsx]) (by simp [raJsx])
        (wChildren_true m en pn children) (wAttrs_spec m en pn attrs)
        (wChildren_spec m en pn children)

theorem wAttrs_spec (m : WrapMode) (en pn : String) :
    ∀ attrs : List JsxAttr, WrapSpec en pn (wAttrs m en pn) (raAttrs m) attrs
  | [] => wrapSpec_leaf en pn _ _ _ (by simp [wAttrs]) (by simp [raAttrs])
  | .attr n v :: rest =>
      wrapSpec_node en pn (wAttrVal m en pn) (raAttrVal m) v
        (wAttrs m en pn) (raAttrs m) rest
        (wAttrs m en pn) (raAttrs m) (fun u w => .attr n u :: w)
        (by simp [wAttrs]) (by simp [raAttrs]) (by simp [raAttrs])
        (wAttrs_true m en pn rest) (wAttrVal_spec m en pn v)
        (wAttrs_spec m en pn rest)

theorem wAttrVal_spec (m : WrapMode) (en pn : String) :
    ∀ v : JsxAttrVal, WrapSpec en pn (wAttrVal m en pn) (raAttrVal m) v
  | .container e =>
      wrapSpec_unary en pn (wExpr m en pn) (raExpr m) e
        (wAttrVal m en pn) (raAttrVal m) (fun u => .container u)
        (by simp [wAttrVal]) (by simp [raAttrVal]) (by simp [raAttrVal])
        (wExpr_spec m en pn e)
  | .lit t => wrapSpec_leaf en pn _ _ _ (by simp [wAttrVal]) (by simp [raAttrVal])

theorem wChildren_spec (m : WrapMode) (en pn : String) :
    ∀ cs : List JsxChild, WrapSpec en pn (wChildren m en pn) (raChildren m) cs
  | [] => wrapSpec_leaf en pn _ _ _ (by simp [wChildren]) (by simp [raChildren])
  | c :: rest =>
      wrapSpec_node en pn (wChild m en pn) (raChild m) c
        (wChildren m en pn) (raChildren m) rest
        (wChildren m en pn) (raChildren m) (fun u v => u :: v)
        (by simp [wChildren]) (by simp [raChildren]) (by simp [raChildren])
        (wChildren_true m en pn rest) (wChild_spec m en pn c)
        (wChildren_spec m en pn rest)

theorem wChild_spec (m : WrapMode) (en pn : String) :
    ∀ c : JsxChild, WrapSpec en pn (wChild m en pn) (raChild m) c
  | .elem j =>
      wrapSpec_unary en pn (wJsx m en pn) (raJsx m) j
        (wChild m en pn) (raChild m) (fun u => JsxChild.elem u)
        (by simp [wChild]) (by simp [raChild]) (by simp [raChild])
        (wJsx_spec m en pn j)
  | .container e =>
      wrapSpec_unary en pn (wExpr m en pn) (raExpr m) e
        (wChild m en pn) (raChild m) (fun u => .container u)
        (by simp [wChild]) (by simp [raChild]) (by simp [raChild])
        (wExpr_spec m en pn e)
  | .text t => wrapSpec_leaf en pn _ _ _ (by simp [wChild]) (by simp [raChild])
end

/-- AddRelayEnvironmentProviderTask.configureNext: traverse in first-return
mode; if no anchor was wrapped the task throws (no write happens); `.ok` is
the tree that is then written back. -/
def providerConfigureNext (mainRel en pn : String) (prog : List Stmt) :
    Except String (List Stmt) :=
  if (wStmts .firstReturn en pn false prog).1 then
    .ok (wStmts .firstReturn en pn false prog).2
  else .error ("Could not find JSX in " ++ mainRel)

/-- AddRelayEnvironmentProviderTask.configureViteOrCra: traverse in
render-call mode; if no anchor was wrapped the task throws (no write). -/
def providerConfigureViteOrCra (mainRel en pn : String) (prog : List Stmt) :
    Except String (List Stmt) :=
  if (wStmts .renderCall en pn false prog).1 then
    .ok (wStmts .renderCall en pn false prog).2
  else .error ("Could not find JSX being passed to ReactDOM.render in " ++ mainRel)

/-- C3: for every input file whose first-return-mode anchors (JSX elements
that are operands of return statements, in the depth-first top-down visit
order) are j1, j2, rest — two or more — the traversal sets the wrapped
flag, mutates exactly the textually-first anchor j1 (wrapping it, or
skipping it if already wrapped), and the output's anchors are the mutated
j1 followed by all later and nested candidates unchanged: once an anchor is
accepted no other candidate is ever considered. -/
theorem c3_first_return_anchor (en pn : String) (prog : List Stmt)
    (j1 j2 : Jsx) (rest : List Jsx)
    (h : raStmts .firstReturn prog = j1 :: j2 :: rest) :
    (wStmts .firstReturn en pn false prog).1 = true ∧
    raStmts .firstReturn ((wStmts .firstReturn en pn false prog).2) =
      applyWrap en pn j1 :: j2 :: rest :=
  (wStmts_spec .firstReturn en pn prog).2 j1 (j2 :: rest) h

/-- Witness for C3: two function declarations each returning JSX — the
first (X) is wrapped, the second (Y) is untouched. -/
theorem c3_witness :
    (wStmts .firstReturn "RelayEnvironment" "RelayEnvironmentProvider" false
      [Stmt.funcDecl "A" [Stmt.ret (Expr.jsx (Jsx.elem (.ident "X") [] []))],
       Stmt.funcDecl "B" [Stmt.ret (Expr.jsx (Jsx.elem (.ident "Y") [] []))]]).1 =
      true ∧
    raStmts .firstReturn
      ((wStmts .firstReturn "RelayEnvironment" "RelayEnvironmentProvider" false
        [Stmt.funcDecl "A" [Stmt.ret (Expr.jsx (Jsx.elem (.ident "X") [] []))],
         Stmt.funcDecl "B" [Stmt.ret (Expr.jsx (Jsx.elem (.ident "Y") [] []))]]).2) =
      applyWrap "RelayEnvironment" "RelayEnvironmentProvider"
        (Jsx.elem (.ident "X") [] []) :: Jsx.elem (.ident "Y") [] [] :: [] :=
  c3_first_return_anchor "RelayEnvironment" "RelayEnvironmentProvider"
    [Stmt.funcDecl "A" [Stmt.ret (Expr.jsx (Jsx.elem (.ident "X") [] []))],
     Stmt.funcDecl "B" [Stmt.ret (Expr.jsx (Jsx.elem (.ident "Y") [] []))]]
    (Jsx.elem (.ident "X") [] []) (Jsx.elem (.ident "Y") [] []) []
    (by simp [raStmts, raStmt, raExpr, raJsx, raAttrs, raChildren])

/-- C2 amended: for AddRelayEnvironmentProviderTask, in both anchor modes,
an input file in which the JSX-host matcher finds no anchor makes the task
fail with the anchor-not-found error before any write happens. -/
theorem c2_amended_no_anchor_fails (mainRel en pn : String) (prog : List Stmt) :
    (raStmts .firstReturn prog = [] →
      providerConfigureNext mainRel en pn prog =
        .error ("Could not find JSX in " ++ mainRel)) ∧
    (raStmts .renderCall prog = [] →
      providerConfigureViteOrCra mainRel en pn prog =
        .error ("Could not find JSX being passed to ReactDOM.render in " ++ mainRel)) := by
  constructor
  · intro h
    have hs := (wStmts_spec .firstReturn en pn prog).1 h
    simp [providerConfigureNext, hs]
  · intro h
    have hs := (wStmts_spec .renderCall en pn prog).1 h
    simp [providerConfigureViteOrCra, hs]

/-- Witness for the amended C2: a file with a single non-JSX statement. -/
theorem c2_amended_witness :
    providerConfigureNext "pages/_app.tsx" "RelayEnvironment"
      "RelayEnvironmentProvider" [Stmt.exprStmt (Expr.ident "x")] =
      .error ("Could not find JSX in " ++ "pages/_app.tsx") :=
  (c2_amended_no_anchor_fails "pages/_app.tsx" "RelayEnvironment"
    "RelayEnvironmentProvider" [Stmt.exprStmt (Expr.ident "x")]).1
    (by simp [raStmts, raStmt, raExpr])

mutual
/-- AddRelayEnvironmentTask.configureVite traversal (the older task): no
`providerWrapped` flag — every render-call JSX argument is wrapped, nothing
is recorded when no anchor exists, and the file is always written. -/
def e3Stmts (en pn : String) : List Stmt → List Stmt
  | [] => []
  | s :: rest => e3Stmt en pn s :: e3Stmts en pn rest

/-- AddRelayEnvironmentTask traversal of one statement. -/
def e3Stmt (en pn : String) : Stmt → Stmt
  | .importDecl sp md => .importDecl sp md
  | .exportDefault e => .exportDefault (e3Expr en pn e)
  | .assign op l r => .assign op (e3Expr en pn l) (e3Expr en pn r)
  | .varDecl n i => .varDecl n (e3Expr en pn i)
  | .funcDecl n body => .funcDecl n (e3Stmts en pn body)
  | .ret e => .ret (e3Expr en pn e)
  | .retVoid => .retVoid
  | .exprStmt e => .exprStmt (e3Expr en pn e)

/-- AddRelayEnvironmentTask traversal of one expression. -/
def e3Expr (en pn : String) : Expr → Expr
  | .ident n => .ident n
  | .strLit v => .strLit v
  | .call c args =>
      .call (e3Expr en pn c)
        (e3Args en pn (isRenderAnchorCall .renderCall c) args)
  | .member o pr => .member (e3Expr en pn o) (e3Expr en pn pr)
  | .obj props => .obj (e3Props en pn props)
  | .arr es => .arr (e3Exprs en pn es)
  | .jsx j => .jsx (e3Jsx en pn j)
  | .arrowFun body => .arrowFun (e3Stmts en pn body)

/-- AddRelayEnvironmentTask traversal of an expression list. -/
def e3Exprs (en pn : String) : List Expr → List Expr
  | [] => []
  | e :: es => e3Expr en pn e :: e3Exprs en pn es

/-- AddRelayEnvironmentTask traversal of call arguments: a JSX element
passed to a render call is wrapped (with path.skip, so no descent); if it
is already wrapped the visitor plainly returns, so traversal descends into
its children. -/
def e3Args (en pn : String) (isR : Bool) : List Expr → List Expr
  | [] => []
  | .jsx j :: es =>
      (if isR then
        match wrapJsxInProvider en pn j with
        | some w => Expr.jsx w
        | none => Expr.jsx (e3Jsx en pn j)
      else Expr.jsx (e3Jsx en pn j)) :: e3Args en pn isR es
  | e :: es => e3Expr en pn e :: e3Args en pn isR es

/-- AddRelayEnvironmentTask traversal of object members. -/
def e3Props (en pn : String) : List ObjProp → List ObjProp
  | [] => []
  | .prop k v :: rest => .prop k (e3Expr en pn v) :: e3Props en pn rest
  | .spread e :: rest => .spread (e3Expr en pn e) :: e3Props en pn rest

/-- AddRelayEnvironmentTask traversal of a JSX element's subtree. -/
def e3Jsx (en pn : String) : Jsx → Jsx
  | .elem nm attrs children =>
      .elem nm (e3Attrs en pn attrs) (e3Children en pn children)

/-- AddRelayEnvironmentTask traversal of JSX attributes. -/
def e3Attrs (en pn : String) : List JsxAttr → List JsxAttr
  | [] => []
  | .attr n v :: rest => .attr n (e3AttrVal en pn v) :: e3Attrs en pn rest

/-- AddRelayEnvironmentTask traversal of a JSX attribute value. -/
def e3AttrVal (en pn : String) : JsxAttrVal → JsxAttrVal
  | .container e => .container (e3Expr en pn e)
  | .lit t => .lit t

/-- AddRelayEnvironmentTask traversal of JSX children. -/
def e3Children (en pn : String) : List JsxChild → List JsxChild
  | [] => []
  | c :: rest => e3Child en pn c :: e3Children en pn rest

/-- AddRelayEnvironmentTask traversal of one JSX child. -/
def e3Child (en pn : String) : JsxChild → JsxChild
  | .elem j => .elem (e3Jsx en pn j)
  | .container e => .container (e3Expr en pn e)
  | .text t => .text t
end

/-- AddRelayEnvironmentTask.configureVite: traverse (wrapping every
render-call JSX argument), print and write the file — there is no check
that an anchor was found, so the function never fails and always produces
a tree to write. -/
def envTaskConfigureVite (en pn : String) (prog : List Stmt) :
    Except String (List Stmt) :=
  .ok (e3Stmts en pn prog)

/-- C2 counterexample: AddRelayEnvironmentTask.configureVite (cited by the
claim for render-call mode) on a file in which the JSX-host matcher finds
no anchor: the task does not fail with an anchor-not-found error — it
succeeds with the unchanged tree, which it then writes back to the target
file, contradicting "the task fails ... and zero bytes are written". -/
theorem c2_counterexample :
    envTaskConfigureVite "RelayEnvironment" "RelayEnvironmentProvider"
      [Stmt.exprStmt (Expr.ident "x")] =
      .ok [Stmt.exprStmt (Expr.ident "x")] := by
  simp [envTaskConfigureVite, e3Stmts, e3Stmt, e3Expr]
